import Mathlib

/-!
Shallow embedding of the matching and reservation engine of the
BirzhaTozhka exchange (src/app/routers/orders.py), together with proofs
about the claims of its specification.

Conventions of the embedding:
* All quantities, prices and balance amounts are `Int`.  Order quantities
  and prices enter the system as integers (`OrderCreate.qty : int`,
  `OrderCreate.price : Optional[int]` in src/app/schemas.py) and every
  operation of the engine uses only `+`, `-`, `*` and `min`, so integer
  values are closed under all reachable computations.
* The SQLAlchemy session is modelled as an explicit `DB` value threaded
  through the operations; `db.commit()` / `db.refresh()` are identities in
  this model since every mutation is already applied to the `DB` value.
* `Order.price` is `Option Int` exactly as the nullable column.  Where the
  Python code uses `order.price` in arithmetic without a null check (it
  would raise a `TypeError` on `None`), the embedding reads `priceOf`,
  i.e. `Option.getD 0`; all states exercised by the theorems have a
  present price on those paths.
* HTTP-level rejections (`HTTPException`) are modelled as error results
  returned together with the database state that remains committed.
-/

namespace Birzha

instance {ε α : Type} [DecidableEq ε] [DecidableEq α] : DecidableEq (Except ε α) :=
  fun a b =>
    match a, b with
    | Except.ok x, Except.ok y =>
      if h : x = y then isTrue (by rw [h]) else isFalse (by intro hc; cases hc; exact h rfl)
    | Except.error x, Except.error y =>
      if h : x = y then isTrue (by rw [h]) else isFalse (by intro hc; cases hc; exact h rfl)
    | Except.ok _, Except.error _ => isFalse (by intro hc; cases hc)
    | Except.error _, Except.ok _ => isFalse (by intro hc; cases hc)

inductive OrderSide where
  | BUY
  | SELL
deriving DecidableEq

inductive OrderType where
  | LIMIT
  | MARKET
deriving DecidableEq

inductive OrderStatus where
  | NEW
  | PARTIALLY_EXECUTED
  | EXECUTED
  | CANCELLED
deriving DecidableEq

/-- A row of the `orders` table (models.Order as used by the router). -/
structure Order where
  id : Nat
  user_id : Nat
  ticker : String
  order_type : OrderType
  side : OrderSide
  quantity : Int
  price : Option Int
  filled_quantity : Int
  status : OrderStatus
  created_at : Nat
  updated_at : Nat
deriving DecidableEq

/-- A row of the `balances` table (models.Balance). -/
structure Balance where
  user_id : Nat
  ticker : String
  amount : Int
deriving DecidableEq

/-- The database state seen by the order router: listed instrument tickers,
order rows, balance rows, a clock used for timestamps and the id that the
next inserted order receives. -/
structure DB where
  instruments : List String
  orders : List Order
  balances : List Balance
  now : Nat
  next_id : Nat
deriving DecidableEq

def remaining (o : Order) : Int :=
  o.quantity - o.filled_quantity

def priceOf (o : Order) : Int :=
  o.price.getD 0

/-- `status in [NEW, PARTIALLY_EXECUTED]`. -/
def isOpen (o : Order) : Bool :=
  o.status == OrderStatus.NEW || o.status == OrderStatus.PARTIALLY_EXECUTED

/-- `db.query(Order).filter(Order.id == oid).first()`. -/
def findOrder (db : DB) (oid : Nat) : Option Order :=
  db.orders.find? (fun o => o.id == oid)

/-- `db.query(Order).filter(Order.id == oid, Order.user_id == uid).first()` —
the owner-scoped lookup used by the get/cancel routes. -/
def findUserOrder (db : DB) (oid uid : Nat) : Option Order :=
  db.orders.find? (fun o => o.id == oid && o.user_id == uid)

/-- In-place mutation of the (unique) order row with id `oid`. -/
def setOrderF (db : DB) (oid : Nat) (f : Order → Order) : DB :=
  { db with orders := db.orders.map (fun o => if o.id == oid then f o else o) }

/-- `db.query(Balance).filter(Balance.user_id == uid, Balance.ticker == t).first()`. -/
def findBalance (bs : List Balance) (uid : Nat) (t : String) : Option Balance :=
  bs.find? (fun b => b.user_id == uid && b.ticker == t)

/-- Mutate the first balance row with the given key, if any (the pattern
`if row: row.amount = f(row.amount)`). -/
def updateFirstBalance (bs : List Balance) (uid : Nat) (t : String) (f : Int → Int) :
    List Balance :=
  match bs with
  | [] => []
  | b :: rest =>
    if b.user_id == uid && b.ticker == t then { b with amount := f b.amount } :: rest
    else b :: updateFirstBalance rest uid t f

/-- The pattern `if row: row.amount += d else: db.add(Balance(amount=d))`. -/
def creditOrCreate (bs : List Balance) (uid : Nat) (t : String) (d : Int) :
    List Balance :=
  if (findBalance bs uid t).isSome then updateFirstBalance bs uid t (fun a => a + d)
  else bs ++ [⟨uid, t, d⟩]

/-- Amount held on the (first) balance row for the key, `0` if no row exists. -/
def amountOf (db : DB) (uid : Nat) (t : String) : Int :=
  ((findBalance db.balances uid t).map Balance.amount).getD 0

/-- get_reserved_balance (orders.py:658): sum, over the user's open orders
for the given ticker, of the remaining quantity for SELL orders and of
remaining × price for BUY LIMIT orders. -/
def get_reserved_balance (db : DB) (uid : Nat) (ticker : String) : Int :=
  let open_orders := db.orders.filter
    (fun o => o.user_id == uid && o.ticker == ticker && isOpen o)
  open_orders.foldl
    (fun acc o =>
      if o.side == OrderSide.SELL then acc + remaining o
      else if o.side == OrderSide.BUY && o.order_type == OrderType.LIMIT then
        acc + remaining o * priceOf o
      else acc)
    0

/-- `ORDER BY price ASC, created_at ASC` — priority among asks. -/
def askLE (a b : Order) : Prop :=
  priceOf a < priceOf b ∨ (priceOf a = priceOf b ∧ a.created_at ≤ b.created_at)

/-- `ORDER BY price DESC, created_at ASC` — priority among bids. -/
def bidLE (a b : Order) : Prop :=
  priceOf b < priceOf a ∨ (priceOf a = priceOf b ∧ a.created_at ≤ b.created_at)

instance : DecidableRel askLE := fun a b => by unfold askLE; infer_instance

instance : DecidableRel bidLE := fun a b => by unfold bidLE; infer_instance

instance : IsTotal Order askLE := by
  constructor
  intro a b
  unfold askLE
  rcases lt_trichotomy (priceOf a) (priceOf b) with h | h | h
  · exact Or.inl (Or.inl h)
  · rcases Nat.le_total a.created_at b.created_at with hc | hc
    · exact Or.inl (Or.inr ⟨h, hc⟩)
    · exact Or.inr (Or.inr ⟨h.symm, hc⟩)
  · exact Or.inr (Or.inl h)

instance : IsTrans Order askLE := by
  constructor
  intro a b c hab hbc
  unfold askLE at *
  rcases hab with h1 | ⟨e1, t1⟩ <;> rcases hbc with h2 | ⟨e2, t2⟩
  · exact Or.inl (h1.trans h2)
  · exact Or.inl (e2 ▸ h1)
  · exact Or.inl (e1 ▸ h2)
  · exact Or.inr ⟨e1.trans e2, t1.trans t2⟩

instance : IsTotal Order bidLE := by
  constructor
  intro a b
  unfold bidLE
  rcases lt_trichotomy (priceOf a) (priceOf b) with h | h | h
  · exact Or.inr (Or.inl h)
  · rcases Nat.le_total a.created_at b.created_at with hc | hc
    · exact Or.inl (Or.inr ⟨h, hc⟩)
    · exact Or.inr (Or.inr ⟨h.symm, hc⟩)
  · exact Or.inl (Or.inl h)

instance : IsTrans Order bidLE := by
  constructor
  intro a b c hab hbc
  unfold bidLE at *
  rcases hab with h1 | ⟨e1, t1⟩ <;> rcases hbc with h2 | ⟨e2, t2⟩
  · exact Or.inl (h2.trans h1)
  · exact Or.inl (e2 ▸ h1)
  · exact Or.inl (e1 ▸ h2)
  · exact Or.inr ⟨e1.trans e2, t1.trans t2⟩

def oppositeSide : OrderSide → OrderSide
  | OrderSide.BUY => OrderSide.SELL
  | OrderSide.SELL => OrderSide.BUY

/-- The filter of the counter-order query of execute_matching
(orders.py:444-481): opposite side, same ticker, status NEW only, positive
remainder; a LIMIT aggressor additionally requires a compatible price
(SQL three-valued comparison: a NULL counter price never satisfies it). -/
def eligibleCounter (order : Order) (o : Order) : Bool :=
  o.ticker == order.ticker &&
  o.side == oppositeSide order.side &&
  o.status == OrderStatus.NEW &&
  o.quantity > o.filled_quantity &&
  (if order.order_type == OrderType.LIMIT then
    match o.price, order.price with
    | some pc, some pa =>
      if order.side == OrderSide.BUY then pc ≤ pa else pc ≥ pa
    | _, _ => false
  else true)

/-- Counter orders considered by execute_matching, in the iteration order
produced by its ORDER BY clause. -/
def counterOrdersFor (db : DB) (order : Order) : List Order :=
  let base := db.orders.filter (eligibleCounter order)
  if order.side == OrderSide.BUY then List.insertionSort askLE base
  else List.insertionSort bidLE base

/-- Result of check_market_order_executable (orders.py:681): whether the
market order can execute and the estimated cost. -/
structure MarketCheck where
  can : Bool
  cost : Int
deriving DecidableEq

/-- check_market_order_executable: look at all open (NEW or
PARTIALLY_EXECUTED) counter orders with a positive remainder, sorted by
price (ascending for a BUY, descending for a SELL); fail when there are
none or when their total volume is short of the requested quantity;
otherwise walk them accumulating the estimated cost. -/
def check_market_order_executable (db : DB) (ticker : String) (side : OrderSide)
    (quantity : Int) : MarketCheck :=
  let counter_side := oppositeSide side
  let base := db.orders.filter
    (fun o => o.ticker == ticker && o.side == counter_side && isOpen o &&
      o.quantity - o.filled_quantity > 0)
  let counter_orders :=
    if side == OrderSide.BUY then List.insertionSort askLE base
    else List.insertionSort bidLE base
  if counter_orders.isEmpty then ⟨false, 0⟩
  else
    let available_volume := (counter_orders.map remaining).sum
    if available_volume < quantity then ⟨false, 0⟩
    else
      let walk := counter_orders.foldl
        (fun (st : Int × Int × Nat) o =>
          if st.1 ≤ 0 then st
          else if remaining o ≤ 0 then st
          else
            let matched := min st.1 (remaining o)
            (st.1 - matched, st.2.1 + matched * priceOf o, st.2.2 + 1))
        (quantity, 0, 0)
      if walk.2.2 == 0 then ⟨false, 0⟩ else ⟨true, walk.2.1⟩

/-- A call of execute_deal, recorded for the proofs (the code's own
transactions table is not implemented yet). -/
structure Trade where
  aggId : Nat
  ctrId : Nat
  qty : Int
  price : Int
deriving DecidableEq

/-- execute_deal (orders.py:536): credit the buyer with the asset and the
seller with RUB (creating missing rows), refund a LIMIT buyer the positive
difference between its reservation for this leg and the amount charged
(only onto an existing RUB row), then bump both filled quantities and set
the counter order's status. -/
def execute_deal (db : DB) (aggId ctrId : Nat) (qty price : Int) : DB :=
  match findOrder db aggId, findOrder db ctrId with
  | some order, some counter =>
    let buyer_id := if order.side == OrderSide.BUY then order.user_id else counter.user_id
    let seller_id := if order.side == OrderSide.BUY then counter.user_id else order.user_id
    let buyer_order := if order.side == OrderSide.BUY then order else counter
    let deal_amount := qty * price
    let bs1 := creditOrCreate db.balances buyer_id order.ticker qty
    let bs2 := creditOrCreate bs1 seller_id "RUB" deal_amount
    let bs3 :=
      if buyer_order.order_type == OrderType.LIMIT then
        let refund := qty * priceOf buyer_order - deal_amount
        if refund > 0 then updateFirstBalance bs2 buyer_id "RUB" (fun a => a + refund)
        else bs2
      else bs2
    let db1 := { db with balances := bs3 }
    let db2 := setOrderF db1 aggId (fun o =>
      { o with filled_quantity := o.filled_quantity + qty, updated_at := db.now })
    setOrderF db2 ctrId (fun o =>
      let f := o.filled_quantity + qty
      { o with
          filled_quantity := f,
          status := if f ≥ o.quantity then OrderStatus.EXECUTED
                    else OrderStatus.PARTIALLY_EXECUTED,
          updated_at := db.now })
  | _, _ => db

/-- The matching walk of execute_matching (orders.py:492-518): stop once
the aggressor is filled, skip same-owner counters and empty remainders,
execute the deal at the counter order's price, then (redundantly with
execute_deal) refresh the counter order's status.  Returns the state and
the executed deals in chronological order. -/
def matchLoop (db : DB) (aggId : Nat) : List Nat → DB × List Trade
  | [] => (db, [])
  | c :: cs =>
    match findOrder db aggId with
    | none => (db, [])
    | some order =>
      if order.filled_quantity ≥ order.quantity then (db, [])
      else
        match findOrder db c with
        | none => matchLoop db aggId cs
        | some counter =>
          if counter.user_id == order.user_id then matchLoop db aggId cs
          else if counter.quantity - counter.filled_quantity ≤ 0 then
            matchLoop db aggId cs
          else
            let order_remaining := order.quantity - order.filled_quantity
            let counter_remaining := counter.quantity - counter.filled_quantity
            let deal_quantity := min order_remaining counter_remaining
            let deal_price := priceOf counter
            let db1 := execute_deal db aggId c deal_quantity deal_price
            let db2 := setOrderF db1 c (fun co =>
              { co with
                  status := if co.filled_quantity ≥ co.quantity then OrderStatus.EXECUTED
                            else OrderStatus.PARTIALLY_EXECUTED })
            let rest := matchLoop db2 aggId cs
            (rest.1, ⟨aggId, c, deal_quantity, deal_price⟩ :: rest.2)

inductive MatchErr where
  | orderNotFound
  | marketNotExecutable
  | noCounterOrders
deriving DecidableEq

/-- execute_matching (orders.py:420): no-op unless the order's status is
NEW; a MARKET order must pass check_market_order_executable and must find
at least one counter order; then the walk runs and the aggressor's final
status is set (EXECUTED when filled, PARTIALLY_EXECUTED on a partial fill,
CANCELLED for an unfilled MARKET order, unchanged otherwise).  The Python
code states the final if-chain twice in a row; the second pass adds only
the MARKET/CANCELLED arm, so the combined effect is the single chain
below. -/
def execute_matching (db : DB) (oid : Nat) : Except MatchErr (DB × List Trade) :=
  match findOrder db oid with
  | none => Except.error MatchErr.orderNotFound
  | some order =>
    if order.status != OrderStatus.NEW then Except.ok (db, [])
    else if order.order_type == OrderType.MARKET &&
        !(check_market_order_executable db order.ticker order.side order.quantity).can then
      Except.error MatchErr.marketNotExecutable
    else
      let counters := counterOrdersFor db order
      if order.order_type == OrderType.MARKET && counters.isEmpty then
        Except.error MatchErr.noCounterOrders
      else
        let res := matchLoop db oid (counters.map Order.id)
        let db2 := setOrderF res.1 oid (fun o =>
          { o with
              status :=
                if o.filled_quantity ≥ o.quantity then OrderStatus.EXECUTED
                else if o.filled_quantity > 0 then OrderStatus.PARTIALLY_EXECUTED
                else if o.order_type == OrderType.MARKET then OrderStatus.CANCELLED
                else o.status,
              updated_at := res.1.now })
        Except.ok (db2, res.2)

/-- cancel_order_and_return_funds (orders.py:619): the rollback used when
matching a freshly created order fails.  Credits the remaining reservation
back (RUB for a priced BUY LIMIT order, the asset for a SELL order, onto
an existing row only) and marks the order CANCELLED. -/
def cancel_order_and_return_funds (db : DB) (oid : Nat) : DB :=
  match findOrder db oid with
  | none => db
  | some order =>
    if !(isOpen order) then db
    else
      let rem := remaining order
      let bs :=
        if rem > 0 then
          if order.side == OrderSide.BUY then
            if order.order_type == OrderType.LIMIT && order.price.isSome then
              updateFirstBalance db.balances order.user_id "RUB"
                (fun a => a + rem * priceOf order)
            else db.balances
          else
            updateFirstBalance db.balances order.user_id order.ticker
              (fun a => a + rem)
        else db.balances
      let db1 := { db with balances := bs }
      setOrderF db1 oid (fun o =>
        { o with status := OrderStatus.CANCELLED, updated_at := db1.now })

inductive CancelErr where
  | notFound
  | invalidStatus
  | limitWithoutPrice
deriving DecidableEq

/-- The DELETE /order/\x7border_id\x7d route (orders.py:340).  Looks the order up
by id and owner, rejects terminal statuses, credits the remaining
reservation back (creating the balance row when missing) and marks the
order CANCELLED.  An error result leaves the state unchanged, which is
returned alongside. -/
def cancel_order (db : DB) (uid : Nat) (oid : Nat) : Except CancelErr Unit × DB :=
  match findUserOrder db oid uid with
  | none => (Except.error CancelErr.notFound, db)
  | some order =>
    if order.status != OrderStatus.NEW &&
        order.status != OrderStatus.PARTIALLY_EXECUTED then
      (Except.error CancelErr.invalidStatus, db)
    else
      let rem := remaining order
      if rem > 0 then
        if order.side == OrderSide.BUY then
          if order.order_type == OrderType.LIMIT then
            match order.price with
            | none => (Except.error CancelErr.limitWithoutPrice, db)
            | some p =>
              let bs := creditOrCreate db.balances uid "RUB" (rem * p)
              let db1 := { db with balances := bs }
              (Except.ok (), setOrderF db1 oid (fun o =>
                { o with status := OrderStatus.CANCELLED, updated_at := db1.now }))
          else
            (Except.ok (), setOrderF db oid (fun o =>
              { o with status := OrderStatus.CANCELLED, updated_at := db.now }))
        else
          let bs := creditOrCreate db.balances uid order.ticker rem
          let db1 := { db with balances := bs }
          (Except.ok (), setOrderF db1 oid (fun o =>
            { o with status := OrderStatus.CANCELLED, updated_at := db1.now }))
      else
        (Except.ok (), setOrderF db oid (fun o =>
          { o with status := OrderStatus.CANCELLED, updated_at := db.now }))

/-- The GET /order/\x7border_id\x7d route (orders.py:304): owner-scoped lookup,
`none` models the 404 response. -/
def get_order (db : DB) (uid : Nat) (oid : Nat) : Option Order :=
  findUserOrder db oid uid

/-- The request body of POST /order (schemas.OrderCreate). -/
structure OrderReq where
  ticker : String
  order_type : OrderType
  side : OrderSide
  quantity : Int
  price : Option Int
deriving DecidableEq

inductive CreateErr where
  | instrumentNotFound
  | rubInstrumentMissing
  | noRubBalance
  | allRubReserved
  | insufficientRub
  | marketNotExecutable
  | insufficientRubForMarket
  | noAssetBalance
  | allAssetReserved
  | insufficientAsset
  | matchingFailed (e : MatchErr)
deriving DecidableEq

/-- Outcome of the POST /order route: the HTTP-level result together with
the database state that remains committed and the executed deals. -/
structure CreateOut where
  result : Except CreateErr Nat
  db : DB
  trades : List Trade
deriving DecidableEq

/-- create_order (orders.py:105): admission checks (instrument and RUB
exist; for a BUY the available RUB — balance minus derived reservation —
must be positive and cover the limit amount or the estimated market cost;
for a SELL the available asset must be positive and cover the quantity),
then the order row is inserted with status NEW, funds are reserved by
decrementing the balance (RUB for a BUY LIMIT order, the asset for any
SELL order), and execute_matching runs; if matching raises, the order is
rolled back via cancel_order_and_return_funds and the error surfaces, with
all previously committed rows kept. -/
def create_order (db : DB) (uid : Nat) (req : OrderReq) : CreateOut :=
  if ¬(req.ticker ∈ db.instruments) then
    ⟨Except.error CreateErr.instrumentNotFound, db, []⟩
  else if ¬("RUB" ∈ db.instruments) then
    ⟨Except.error CreateErr.rubInstrumentMissing, db, []⟩
  else
    let admitted : Except CreateErr Unit :=
      if req.side == OrderSide.BUY then
        match findBalance db.balances uid "RUB" with
        | none => Except.error CreateErr.noRubBalance
        | some rub_balance =>
          let reserved_rub := get_reserved_balance db uid "RUB"
          let available_rub := rub_balance.amount - reserved_rub
          if available_rub ≤ 0 then Except.error CreateErr.allRubReserved
          else if req.order_type == OrderType.LIMIT then
            let required_amount := (req.price.getD 0) * req.quantity
            if available_rub < required_amount then
              Except.error CreateErr.insufficientRub
            else Except.ok ()
          else
            let mc := check_market_order_executable db req.ticker req.side req.quantity
            if !mc.can then Except.error CreateErr.marketNotExecutable
            else if available_rub < mc.cost then
              Except.error CreateErr.insufficientRubForMarket
            else Except.ok ()
      else
        match findBalance db.balances uid req.ticker with
        | none => Except.error CreateErr.noAssetBalance
        | some asset_balance =>
          let reserved_asset := get_reserved_balance db uid req.ticker
          let available_asset := asset_balance.amount - reserved_asset
          if available_asset ≤ 0 then Except.error CreateErr.allAssetReserved
          else if available_asset < req.quantity then
            Except.error CreateErr.insufficientAsset
          else Except.ok ()
    match admitted with
    | Except.error e => ⟨Except.error e, db, []⟩
    | Except.ok () =>
      let new_order : Order :=
        { id := db.next_id
          user_id := uid
          ticker := req.ticker
          order_type := req.order_type
          side := req.side
          quantity := req.quantity
          price := req.price
          filled_quantity := 0
          status := OrderStatus.NEW
          created_at := db.now
          updated_at := db.now }
      let db1 : DB :=
        { db with
            orders := db.orders ++ [new_order]
            next_id := db.next_id + 1
            now := db.now + 1 }
      let db2 : DB :=
        if req.side == OrderSide.BUY && req.order_type == OrderType.LIMIT then
          { db1 with
              balances := updateFirstBalance db1.balances uid "RUB"
                (fun a => a - (req.price.getD 0) * req.quantity) }
        else if req.side == OrderSide.SELL then
          { db1 with
              balances := updateFirstBalance db1.balances uid req.ticker
                (fun a => a - req.quantity) }
        else db1
      match execute_matching db2 new_order.id with
      | Except.ok res => ⟨Except.ok new_order.id, res.1, res.2⟩
      | Except.error e =>
        ⟨Except.error (CreateErr.matchingFailed e),
          cancel_order_and_return_funds db2 new_order.id, []⟩

/-- The membership filter of the public order book view
(get_orderbook, orders.py:30-56): LIMIT orders with status NEW, a present
price and a positive remainder. -/
def inOrderBook (ticker : String) (o : Order) : Bool :=
  o.ticker == ticker &&
  o.order_type == OrderType.LIMIT &&
  o.status == OrderStatus.NEW &&
  o.price.isSome &&
  o.quantity - o.filled_quantity > 0

/-! ### Specification-side definitions used to state the claims -/

/-- The quantity locked by a single open order, in the words of the claim:
the full remaining quantity for SELL orders, remaining × limit price for
LIMIT BUY orders, zero for (BUY) MARKET orders. -/
def lockOf (o : Order) : Int :=
  match o.side, o.order_type with
  | OrderSide.SELL, _ => remaining o
  | OrderSide.BUY, OrderType.LIMIT => remaining o * priceOf o
  | OrderSide.BUY, OrderType.MARKET => 0

/-- The derived reservation as the claim words it: the sum of `lockOf` over
the owner's open orders for the ticker. -/
def reservedSpec (db : DB) (uid : Nat) (ticker : String) : Int :=
  ((db.orders.filter
    (fun o => o.user_id == uid && o.ticker == ticker && isOpen o)).map lockOf).sum

/-- The state-machine agreement rule of the claims: unless the order was
cancelled, EXECUTED iff fully filled, PARTIALLY_EXECUTED iff strictly
partially filled, NEW iff nothing filled. -/
def statusAgrees (o : Order) : Prop :=
  o.status = OrderStatus.CANCELLED ∨
  ((o.status = OrderStatus.EXECUTED ↔ o.filled_quantity = o.quantity) ∧
   (o.status = OrderStatus.PARTIALLY_EXECUTED ↔
     0 < o.filled_quantity ∧ o.filled_quantity < o.quantity) ∧
   (o.status = OrderStatus.NEW ↔ o.filled_quantity = 0))

/-- Uniqueness of order ids (the primary-key property of the orders table). -/
def idsNodup (db : DB) : Prop :=
  (db.orders.map Order.id).Nodup

/-- Bounds invariant on fill quantities: `0 ≤ filled_quantity ≤ quantity`
for every order row. -/
def fillBounds (db : DB) : Prop :=
  ∀ o ∈ db.orders, 0 ≤ o.filled_quantity ∧ o.filled_quantity ≤ o.quantity

/-- The price-time priority relation the matcher is claimed to follow:
asks ascending for a BUY aggressor, bids descending for a SELL aggressor,
ties broken by earlier creation. -/
def priorityRel (side : OrderSide) : Order → Order → Prop :=
  match side with
  | OrderSide.BUY => askLE
  | OrderSide.SELL => bidLE

/-! ### Concrete states used by the example and counterexample theorems -/

/-- User 1 holds 10 AAA and nothing else; the book is empty. -/
def dbSellTen : DB :=
  { instruments := ["RUB", "AAA"]
    orders := []
    balances := [⟨1, "AAA", 10⟩]
    now := 5
    next_id := 1 }

/-- User 1 places a LIMIT SELL of the full 10 AAA at price 5. -/
def outSellTen : CreateOut :=
  create_order dbSellTen 1 ⟨"AAA", OrderType.LIMIT, OrderSide.SELL, 10, some 5⟩

/-- Two resting SELL orders at price 100, order id 1 (user 2) created
before order id 2 (user 3); user 1 holds 1000 RUB. -/
def dbTwoAsks : DB :=
  { instruments := ["RUB", "AAA"]
    orders :=
      [ ⟨1, 2, "AAA", OrderType.LIMIT, OrderSide.SELL, 1, some 100, 0, OrderStatus.NEW, 1, 1⟩
      , ⟨2, 3, "AAA", OrderType.LIMIT, OrderSide.SELL, 1, some 100, 0, OrderStatus.NEW, 2, 2⟩ ]
    balances := [⟨1, "RUB", 1000⟩]
    now := 5
    next_id := 3 }

/-- User 1 sends a LIMIT BUY for a single unit at 100 into `dbTwoAsks`. -/
def outTwoAsks : CreateOut :=
  create_order dbTwoAsks 1 ⟨"AAA", OrderType.LIMIT, OrderSide.BUY, 1, some 100⟩

/-- A resting SELL of 5 AAA at 100 by user 2; user 1 holds 1000 RUB. -/
def dbPriceImprove : DB :=
  { instruments := ["RUB", "AAA"]
    orders :=
      [⟨1, 2, "AAA", OrderType.LIMIT, OrderSide.SELL, 5, some 100, 0, OrderStatus.NEW, 1, 1⟩]
    balances := [⟨1, "RUB", 1000⟩, ⟨2, "RUB", 0⟩]
    now := 5
    next_id := 2 }

/-- User 1 sends a LIMIT BUY for 5 at 110 into `dbPriceImprove`. -/
def outPriceImprove : CreateOut :=
  create_order dbPriceImprove 1 ⟨"AAA", OrderType.LIMIT, OrderSide.BUY, 5, some 110⟩

/-- User 1 holds 1000 RUB; no resting SELL orders exist. -/
def dbMarketBuyEmpty : DB :=
  { instruments := ["RUB", "AAA"]
    orders := []
    balances := [⟨1, "RUB", 1000⟩]
    now := 5
    next_id := 1 }

/-- User 1 sends a MARKET BUY for 10 into the empty book. -/
def outMarketBuyEmpty : CreateOut :=
  create_order dbMarketBuyEmpty 1 ⟨"AAA", OrderType.MARKET, OrderSide.BUY, 10, none⟩

/-- User 1 holds 10 AAA; no resting BUY orders exist. -/
def dbMarketSellEmpty : DB :=
  { instruments := ["RUB", "AAA"]
    orders := []
    balances := [⟨1, "AAA", 10⟩]
    now := 5
    next_id := 1 }

/-- User 1 sends a MARKET SELL for 5 into the empty book. -/
def outMarketSellEmpty : CreateOut :=
  create_order dbMarketSellEmpty 1 ⟨"AAA", OrderType.MARKET, OrderSide.SELL, 5, none⟩

/-- A partially executed resting SELL order with remainder 5. -/
def oPartial : Order :=
  ⟨1, 2, "AAA", OrderType.LIMIT, OrderSide.SELL, 8, some 100, 3,
    OrderStatus.PARTIALLY_EXECUTED, 1, 1⟩

/-- A state whose only order is `oPartial`. -/
def dbPartial : DB :=
  { instruments := ["RUB", "AAA"]
    orders := [oPartial]
    balances := [⟨1, "RUB", 1000⟩, ⟨2, "AAA", 0⟩]
    now := 5
    next_id := 2 }

/-- A NEW LIMIT BUY aggressor of user 1 at price 100, id 9, matching
`oPartial`'s ticker. -/
def oAggressor : Order :=
  ⟨9, 1, "AAA", OrderType.LIMIT, OrderSide.BUY, 5, some 100, 0, OrderStatus.NEW, 4, 4⟩

/-- Order book for the mid-walk counterexample: two asks (1 unit at 100 by
user 2, 1 unit at 101 by user 3) and a NEW BUY aggressor of user 1 for
2 units at limit 101, already admitted as order id 3. -/
def dbMidWalk : DB :=
  { instruments := ["RUB", "AAA"]
    orders :=
      [ ⟨1, 2, "AAA", OrderType.LIMIT, OrderSide.SELL, 1, some 100, 0, OrderStatus.NEW, 1, 1⟩
      , ⟨2, 3, "AAA", OrderType.LIMIT, OrderSide.SELL, 1, some 101, 0, OrderStatus.NEW, 2, 2⟩
      , ⟨3, 1, "AAA", OrderType.LIMIT, OrderSide.BUY, 2, some 101, 0, OrderStatus.NEW, 3, 3⟩ ]
    balances := [⟨1, "RUB", 1000⟩]
    now := 5
    next_id := 4 }

/-- The aggressor row of `dbMidWalk`. -/
def oMidWalkAgg : Order :=
  ⟨3, 1, "AAA", OrderType.LIMIT, OrderSide.BUY, 2, some 101, 0, OrderStatus.NEW, 3, 3⟩

/-- `dbMidWalk` after the first trade leg of the walk (the walk's counter
list is `[1, 2]`, so processing `[1]` is exactly the state between the two
legs). -/
def dbAfterFirstLeg : DB :=
  (matchLoop dbMidWalk 3 [1]).1

/-- Book with a NEW BUY for 1 unit at 100 (user 2) and a partially
executed BUY with remainder 5 at 100 (user 3); user 1 holds 10 AAA. -/
def dbMarketPartial : DB :=
  { instruments := ["RUB", "AAA"]
    orders :=
      [ ⟨1, 2, "AAA", OrderType.LIMIT, OrderSide.BUY, 1, some 100, 0, OrderStatus.NEW, 1, 1⟩
      , ⟨2, 3, "AAA", OrderType.LIMIT, OrderSide.BUY, 6, some 100, 1,
          OrderStatus.PARTIALLY_EXECUTED, 2, 2⟩ ]
    balances := [⟨1, "AAA", 10⟩, ⟨2, "RUB", 0⟩]
    now := 5
    next_id := 3 }

/-- User 1 sends a MARKET SELL for 3 into `dbMarketPartial`; the
feasibility check passes (volume 1 + 5 ≥ 3) but the walk only matches the
NEW counter, leaving the market order partially filled. -/
def outMarketPartial : CreateOut :=
  create_order dbMarketPartial 1 ⟨"AAA", OrderType.MARKET, OrderSide.SELL, 3, none⟩

/-- A NEW LIMIT SELL of 8 AAA by user 1, nothing filled; the user's AAA
row holds 2 (the other 8 are the order's reservation). -/
def dbCancelSell : DB :=
  { instruments := ["RUB", "AAA"]
    orders := [⟨1, 1, "AAA", OrderType.LIMIT, OrderSide.SELL, 8, some 5, 0, OrderStatus.NEW, 1, 1⟩]
    balances := [⟨1, "AAA", 2⟩]
    now := 5
    next_id := 2 }

/-- `dbCancelSell` with order 1 owned by user 2 instead: used to check
owner isolation of lookup and cancellation. -/
def dbForeignOrder : DB :=
  { instruments := ["RUB", "AAA"]
    orders := [⟨1, 2, "AAA", OrderType.LIMIT, OrderSide.SELL, 8, some 5, 0, OrderStatus.NEW, 1, 1⟩]
    balances := [⟨2, "AAA", 2⟩]
    now := 5
    next_id := 2 }

/-- Amount on the first matching balance row of a row list, `0` if absent. -/
def amountIn (bs : List Balance) (uid : Nat) (t : String) : Int :=
  ((findBalance bs uid t).map Balance.amount).getD 0

/-- The fields of an order row that no operation of the engine ever
mutates (everything except `filled_quantity`, `status`, `updated_at`). -/
def sameCore (o o' : Order) : Prop :=
  o'.id = o.id ∧ o'.user_id = o.user_id ∧ o'.ticker = o.ticker ∧
  o'.order_type = o.order_type ∧ o'.side = o.side ∧ o'.quantity = o.quantity ∧
  o'.price = o.price ∧ o'.created_at = o.created_at

/-- One full trade leg of the walk: execute_deal followed by the loop's
own refresh of the counter order's status. -/
def dealStep (db : DB) (agg c : Nat) (order counter : Order) : DB :=
  setOrderF
    (execute_deal db agg c
      (min (order.quantity - order.filled_quantity)
        (counter.quantity - counter.filled_quantity))
      (priceOf counter))
    c
    (fun co =>
      { co with
          status := if co.filled_quantity ≥ co.quantity then OrderStatus.EXECUTED
                    else OrderStatus.PARTIALLY_EXECUTED })

/-- A buyer's NEW LIMIT BUY of 5 AAA at limit 110 (order id 1, user 1). -/
def oBuyW : Order :=
  ⟨1, 1, "AAA", OrderType.LIMIT, OrderSide.BUY, 5, some 110, 0, OrderStatus.NEW, 2, 2⟩

/-- A resting LIMIT SELL of 5 AAA at 100 (order id 2, user 2). -/
def oSellW : Order :=
  ⟨2, 2, "AAA", OrderType.LIMIT, OrderSide.SELL, 5, some 100, 0, OrderStatus.NEW, 1, 1⟩

/-- State holding `oBuyW`, `oSellW` and both users' RUB rows, used to
exercise a single deal leg directly. -/
def dbDealW : DB :=
  { instruments := ["RUB", "AAA"]
    orders := [oBuyW, oSellW]
    balances := [⟨1, "RUB", 450⟩, ⟨2, "RUB", 0⟩]
    now := 5
    next_id := 3 }

/-- The NEW LIMIT SELL row of `dbCancelSell`. -/
def oCancelSell : Order :=
  ⟨1, 1, "AAA", OrderType.LIMIT, OrderSide.SELL, 8, some 5, 0, OrderStatus.NEW, 1, 1⟩

/-- The result of matching the admitted aggressor of `dbMidWalk`. -/
def resMidWalk : DB × List Trade :=
  (execute_matching dbMidWalk 3).toOption.getD (dbMidWalk, [])

/-- Like `dbMarketPartial`, but with the MARKET SELL of 3 AAA by user 1
already persisted as NEW order 3 and its reservation taken (AAA 10 − 3). -/
def dbMarketNew : DB :=
  { instruments := ["RUB", "AAA"]
    orders :=
      [ ⟨1, 2, "AAA", OrderType.LIMIT, OrderSide.BUY, 1, some 100, 0, OrderStatus.NEW, 1, 1⟩
      , ⟨2, 3, "AAA", OrderType.LIMIT, OrderSide.BUY, 6, some 100, 1,
          OrderStatus.PARTIALLY_EXECUTED, 2, 2⟩
      , ⟨3, 1, "AAA", OrderType.MARKET, OrderSide.SELL, 3, none, 0, OrderStatus.NEW, 5, 5⟩ ]
    balances := [⟨1, "AAA", 7⟩, ⟨2, "RUB", 0⟩]
    now := 6
    next_id := 4 }

/-- The NEW MARKET SELL row of `dbMarketNew`. -/
def oMarketNew : Order :=
  ⟨3, 1, "AAA", OrderType.MARKET, OrderSide.SELL, 3, none, 0, OrderStatus.NEW, 5, 5⟩

/-- The result of matching the market order of `dbMarketNew`. -/
def resMarketNew : DB × List Trade :=
  (execute_matching dbMarketNew 3).toOption.getD (dbMarketNew, [])

/-! ### Helper lemmas -/

theorem amountOf_eq_amountIn (db : DB) (uid : Nat) (t : String) :
    amountOf db uid t = amountIn db.balances uid t := rfl

theorem findBalance_updateFirst_other (bs : List Balance) (u : Nat) (t : String)
    (f : Int → Int) (u' : Nat) (t' : String) (h : ¬(u' = u ∧ t' = t)) :
    findBalance (updateFirstBalance bs u t f) u' t' = findBalance bs u' t' := by
  induction bs with
  | nil => rfl
  | cons b rest ih =>
    by_cases hb : b.user_id = u ∧ b.ticker = t
    · have hp : ¬(u = u' ∧ t = t') := by
        rintro ⟨h1, h2⟩
        exact h ⟨h1.symm, h2.symm⟩
      simp [updateFirstBalance, findBalance, hb, hp]
    · by_cases hp : b.user_id = u' ∧ b.ticker = t'
      · simp [updateFirstBalance, findBalance, hb, hp, h]
      · simp only [findBalance] at ih
        simp [updateFirstBalance, findBalance, hb, hp, ih]

theorem findBalance_updateFirst_same (bs : List Balance) (u : Nat) (t : String)
    (f : Int → Int) :
    findBalance (updateFirstBalance bs u t f) u t =
      (findBalance bs u t).map (fun b => { b with amount := f b.amount }) := by
  induction bs with
  | nil => rfl
  | cons b rest ih =>
    by_cases hb : b.user_id = u ∧ b.ticker = t
    · simp [updateFirstBalance, findBalance, hb]
    · simp only [findBalance] at ih
      simp [updateFirstBalance, findBalance, hb, ih]

theorem findBalance_append_single_other (bs : List Balance) (x : Balance)
    (u' : Nat) (t' : String) (h : ¬(u' = x.user_id ∧ t' = x.ticker)) :
    findBalance (bs ++ [x]) u' t' = findBalance bs u' t' := by
  have hp : ¬(x.user_id = u' ∧ x.ticker = t') := by
    rintro ⟨h1, h2⟩
    exact h ⟨h1.symm, h2.symm⟩
  induction bs with
  | nil => simp [findBalance, hp]
  | cons b rest ih =>
    by_cases hq : b.user_id = u' ∧ b.ticker = t'
    · simp [findBalance, hq]
    · simp only [findBalance] at ih
      simp [findBalance, hq, ih]

theorem findBalance_creditOrCreate_other (bs : List Balance) (u : Nat) (t : String)
    (d : Int) (u' : Nat) (t' : String) (h : ¬(u' = u ∧ t' = t)) :
    findBalance (creditOrCreate bs u t d) u' t' = findBalance bs u' t' := by
  unfold creditOrCreate
  by_cases hs : (findBalance bs u t).isSome
  · simp only [hs, if_true]
    exact findBalance_updateFirst_other bs u t _ u' t' h
  · simp only [hs, if_false]
    exact findBalance_append_single_other bs ⟨u, t, d⟩ u' t' h

theorem findBalance_append_single_of_none (bs : List Balance) (x : Balance)
    (h : findBalance bs x.user_id x.ticker = none) :
    findBalance (bs ++ [x]) x.user_id x.ticker = some x := by
  induction bs with
  | nil => simp [findBalance]
  | cons b rest ih =>
    by_cases hq : b.user_id = x.user_id ∧ b.ticker = x.ticker
    · simp [findBalance, hq] at h
    · simp only [findBalance] at h ih ⊢
      have hpb : ¬((b.user_id == x.user_id && b.ticker == x.ticker) = true) := by
        simpa [Bool.and_eq_true, beq_iff_eq] using hq
      rw [List.find?_cons_of_neg rest hpb] at h
      rw [List.cons_append, List.find?_cons_of_neg (rest ++ [x]) hpb]
      exact ih h

theorem amountIn_creditOrCreate_same (bs : List Balance) (u : Nat) (t : String)
    (d : Int) :
    amountIn (creditOrCreate bs u t d) u t = amountIn bs u t + d := by
  unfold creditOrCreate
  by_cases hs : (findBalance bs u t).isSome
  · rcases Option.isSome_iff_exists.mp hs with ⟨b, hb⟩
    simp [amountIn, findBalance_updateFirst_same, hb]
  · have hn : findBalance bs u t = none := Option.not_isSome_iff_eq_none.mp hs
    have happ : findBalance (bs ++ [⟨u, t, d⟩]) u t = some ⟨u, t, d⟩ :=
      findBalance_append_single_of_none bs ⟨u, t, d⟩ hn
    simp [amountIn, hs, hn, happ]

theorem amountIn_updateFirst_add (bs : List Balance) (u : Nat) (t : String)
    (d : Int) (hs : (findBalance bs u t).isSome) :
    amountIn (updateFirstBalance bs u t (fun a => a + d)) u t = amountIn bs u t + d := by
  rcases Option.isSome_iff_exists.mp hs with ⟨b, hb⟩
  simp [amountIn, findBalance_updateFirst_same, hb]

theorem sameCore_refl (o : Order) : sameCore o o :=
  ⟨rfl, rfl, rfl, rfl, rfl, rfl, rfl, rfl⟩

theorem sameCore_trans {a b c : Order} (h1 : sameCore a b) (h2 : sameCore b c) :
    sameCore a c := by
  obtain ⟨e1, e2, e3, e4, e5, e6, e7, e8⟩ := h1
  obtain ⟨f1, f2, f3, f4, f5, f6, f7, f8⟩ := h2
  exact ⟨f1.trans e1, f2.trans e2, f3.trans e3, f4.trans e4, f5.trans e5,
    f6.trans e6, f7.trans e7, f8.trans e8⟩

theorem exists_core_of_mem_map {g : Order → Order} (hg : ∀ o, sameCore o (g o))
    {l : List Order} {o' : Order} (h : o' ∈ l.map g) :
    ∃ o ∈ l, sameCore o o' := by
  rcases List.mem_map.mp h with ⟨o, hm, rfl⟩
  exact ⟨o, hm, hg o⟩

theorem find?_eq_of_mem_nodup (l : List Order) (hnd : (l.map Order.id).Nodup)
    (o : Order) (hm : o ∈ l) (oid : Nat) (hid : o.id = oid) :
    l.find? (fun x => x.id == oid) = some o := by
  induction l with
  | nil => cases hm
  | cons a rest ih =>
    rcases List.mem_cons.mp hm with rfl | hmem
    · rw [List.find?_cons_of_pos rest (by simp [hid])]
    · have hne : a.id ≠ oid := by
        intro he
        have hmm : a.id ∈ rest.map Order.id := by
          rw [he, ← hid]
          exact List.mem_map_of_mem Order.id hmem
        exact (List.nodup_cons.mp (by simpa using hnd)).1 hmm
      rw [List.find?_cons_of_neg rest (by simp [hne])]
      exact ih (List.nodup_cons.mp (by simpa using hnd)).2 hmem

theorem eq_of_mem_nodup_id (l : List Order) (hnd : (l.map Order.id).Nodup)
    (o₁ o₂ : Order) (h1 : o₁ ∈ l) (h2 : o₂ ∈ l) (hid : o₁.id = o₂.id) : o₁ = o₂ := by
  have e1 : l.find? (fun x => x.id == o₂.id) = some o₁ :=
    find?_eq_of_mem_nodup l hnd o₁ h1 o₂.id hid
  have e2 : l.find? (fun x => x.id == o₂.id) = some o₂ :=
    find?_eq_of_mem_nodup l hnd o₂ h2 o₂.id rfl
  exact Option.some_injective _ (e1.symm.trans e2)

theorem findOrder_id (db : DB) (oid : Nat) (o : Order)
    (h : findOrder db oid = some o) : o.id = oid := by
  have := List.find?_some h
  simpa [beq_iff_eq] using this

theorem findOrder_mem (db : DB) (oid : Nat) (o : Order)
    (h : findOrder db oid = some o) : o ∈ db.orders :=
  List.mem_of_find?_eq_some h

theorem map_id_setOrderF (db : DB) (oid : Nat) (f : Order → Order)
    (hf : ∀ o, (f o).id = o.id) :
    (setOrderF db oid f).orders.map Order.id = db.orders.map Order.id := by
  simp only [setOrderF, List.map_map]
  apply List.map_congr_left
  intro o _
  by_cases h : (o.id == oid) = true <;> simp [Function.comp, h, hf]

theorem setOrderF_balances (db : DB) (oid : Nat) (f : Order → Order) :
    (setOrderF db oid f).balances = db.balances := rfl

theorem findOrder_setOrderF_self (db : DB) (oid : Nat) (f : Order → Order)
    (hf : ∀ o, (f o).id = o.id) (hnd : idsNodup db) (o : Order)
    (h : findOrder db oid = some o) :
    findOrder (setOrderF db oid f) oid = some (f o) := by
  have hid : o.id = oid := findOrder_id db oid o h
  have hmem : o ∈ db.orders := findOrder_mem db oid o h
  have hnd' : ((setOrderF db oid f).orders.map Order.id).Nodup := by
    rw [map_id_setOrderF db oid f hf]; exact hnd
  have hmem' : (if o.id == oid then f o else o) ∈ (setOrderF db oid f).orders :=
    List.mem_map_of_mem _ hmem
  rw [if_pos (by simp [hid])] at hmem'
  exact find?_eq_of_mem_nodup _ hnd' (f o) hmem' oid (by rw [hf]; exact hid)

theorem find?_map_invariant (g : Order → Order) (p : Order → Bool)
    (h1 : ∀ x, p (g x) = p x) (h2 : ∀ x, p x = true → g x = x) (l : List Order) :
    (l.map g).find? p = l.find? p := by
  induction l with
  | nil => rfl
  | cons a rest ih =>
    by_cases hp : p a = true
    · rw [List.map_cons, List.find?_cons_of_pos (rest.map g) (by rw [h1]; exact hp),
        List.find?_cons_of_pos rest hp, h2 a hp]
    · rw [List.map_cons, List.find?_cons_of_neg (rest.map g) (by rw [h1]; simpa using hp),
        List.find?_cons_of_neg rest (by simpa using hp)]
      exact ih

theorem findOrder_setOrderF_other (db : DB) (oid' oid : Nat) (f : Order → Order)
    (hf : ∀ o, (f o).id = o.id) (hne : oid ≠ oid') :
    findOrder (setOrderF db oid' f) oid = findOrder db oid := by
  unfold findOrder setOrderF
  apply find?_map_invariant
  · intro x
    by_cases h : (x.id == oid') = true <;> simp [h, hf]
  · intro x hx
    have : x.id = oid := by simpa [beq_iff_eq] using hx
    rw [if_neg (by simp [this, hne])]

theorem foldl_reserved_eq_sum (l : List Order) (a : Int) :
    l.foldl
      (fun acc o =>
        if o.side == OrderSide.SELL then acc + remaining o
        else if o.side == OrderSide.BUY && o.order_type == OrderType.LIMIT then
          acc + remaining o * priceOf o
        else acc)
      a = a + (l.map lockOf).sum := by
  induction l generalizing a with
  | nil => simp
  | cons o rest ih =>
    simp only [List.foldl_cons, List.map_cons, List.sum_cons]
    rw [ih]
    have hb : (if o.side == OrderSide.SELL then a + remaining o
        else if o.side == OrderSide.BUY && o.order_type == OrderType.LIMIT then
          a + remaining o * priceOf o
        else a) = a + lockOf o := by
      rcases hs : o.side <;> rcases ht : o.order_type <;>
        simp [lockOf, hs, ht]
    rw [hb]
    ring

theorem execute_deal_core (db : DB) (a c : Nat) (q p : Int) :
    ∀ o' ∈ (execute_deal db a c q p).orders, ∃ o ∈ db.orders, sameCore o o' := by
  intro o' h
  unfold execute_deal at h
  cases hfa : findOrder db a with
  | none =>
    rw [hfa] at h
    cases hfc : findOrder db c with
    | none => rw [hfc] at h; exact ⟨o', h, sameCore_refl o'⟩
    | some counter => rw [hfc] at h; exact ⟨o', h, sameCore_refl o'⟩
  | some order =>
    rw [hfa] at h
    cases hfc : findOrder db c with
    | none => rw [hfc] at h; exact ⟨o', h, sameCore_refl o'⟩
    | some counter =>
      rw [hfc] at h
      simp only [setOrderF, List.map_map] at h
      rcases List.mem_map.mp h with ⟨o, hm, rfl⟩
      refine ⟨o, hm, ?_⟩
      dsimp only [Function.comp]
      by_cases h1 : (o.id == a) = true
      · by_cases h2 : (o.id == c) = true
        · simp [sameCore, h1, h2]
        · simp [sameCore, h1, h2]
      · by_cases h2 : (o.id == c) = true
        · simp [sameCore, h1, h2]
        · simp [sameCore, h1, h2]

theorem matchLoop_cons_cases (db : DB) (agg c : Nat) (cs : List Nat) :
    matchLoop db agg (c :: cs) = (db, []) ∨
    matchLoop db agg (c :: cs) = matchLoop db agg cs ∨
    (∃ order counter, findOrder db agg = some order ∧ findOrder db c = some counter ∧
      ¬(order.filled_quantity ≥ order.quantity) ∧
      counter.user_id ≠ order.user_id ∧
      ¬(counter.quantity - counter.filled_quantity ≤ 0) ∧
      matchLoop db agg (c :: cs) =
        ((matchLoop (dealStep db agg c order counter) agg cs).1,
          ⟨agg, c,
            min (order.quantity - order.filled_quantity)
              (counter.quantity - counter.filled_quantity),
            priceOf counter⟩ ::
          (matchLoop (dealStep db agg c order counter) agg cs).2)) := by
  rw [matchLoop]
  cases hfa : findOrder db agg with
  | none => exact Or.inl rfl
  | some order =>
    dsimp only
    by_cases hful : order.filled_quantity ≥ order.quantity
    · rw [if_pos hful]
      exact Or.inl rfl
    · rw [if_neg hful]
      cases hfc : findOrder db c with
      | none => exact Or.inr (Or.inl rfl)
      | some counter =>
        dsimp only
        by_cases huser : (counter.user_id == order.user_id) = true
        · rw [if_pos huser]
          exact Or.inr (Or.inl rfl)
        · rw [if_neg huser]
          by_cases hrem : counter.quantity - counter.filled_quantity ≤ 0
          · rw [if_pos hrem]
            exact Or.inr (Or.inl rfl)
          · rw [if_neg hrem]
            refine Or.inr (Or.inr ⟨order, counter, rfl, rfl, hful, ?_, hrem, rfl⟩)
            simpa [beq_iff_eq] using huser

theorem map_id_execute_deal (db : DB) (a c : Nat) (q p : Int) :
    (execute_deal db a c q p).orders.map Order.id = db.orders.map Order.id := by
  unfold execute_deal
  cases hfa : findOrder db a with
  | none =>
    cases hfc : findOrder db c with
    | none => rfl
    | some counter => rfl
  | some order =>
    cases hfc : findOrder db c with
    | none => rfl
    | some counter =>
      dsimp only
      rw [map_id_setOrderF, map_id_setOrderF]
      all_goals intro o
      all_goals rfl

theorem map_id_dealStep (db : DB) (agg c : Nat) (order counter : Order) :
    (dealStep db agg c order counter).orders.map Order.id = db.orders.map Order.id := by
  unfold dealStep
  rw [map_id_setOrderF, map_id_execute_deal]
  intro o
  rfl

theorem dealStep_core (db : DB) (agg c : Nat) (order counter : Order) :
    ∀ o' ∈ (dealStep db agg c order counter).orders, ∃ o ∈ db.orders, sameCore o o' := by
  intro o' h
  unfold dealStep setOrderF at h
  rcases List.mem_map.mp h with ⟨o₂, hm2, rfl⟩
  rcases execute_deal_core db agg c _ _ o₂ hm2 with ⟨o, hm, hcore⟩
  refine ⟨o, hm, sameCore_trans hcore ?_⟩
  by_cases h2 : (o₂.id == c) = true <;> simp [sameCore, h2]

theorem matchLoop_core (agg : Nat) (cs : List Nat) :
    ∀ db : DB, ∀ o' ∈ (matchLoop db agg cs).1.orders, ∃ o ∈ db.orders, sameCore o o' := by
  induction cs with
  | nil =>
    intro db o' h
    exact ⟨o', h, sameCore_refl o'⟩
  | cons c cs ih =>
    intro db o' h
    rcases matchLoop_cons_cases db agg c cs with heq | heq |
      ⟨order, counter, _, _, _, _, _, heq⟩
    · rw [heq] at h
      exact ⟨o', h, sameCore_refl o'⟩
    · rw [heq] at h
      exact ih db o' h
    · rw [heq] at h
      dsimp only at h
      rcases ih (dealStep db agg c order counter) o' h with ⟨o₂, hm2, hcore2⟩
      rcases dealStep_core db agg c order counter o₂ hm2 with ⟨o, hm, hcore⟩
      exact ⟨o, hm, sameCore_trans hcore hcore2⟩

theorem map_id_matchLoop (agg : Nat) (cs : List Nat) :
    ∀ db : DB, (matchLoop db agg cs).1.orders.map Order.id = db.orders.map Order.id := by
  induction cs with
  | nil =>
    intro db
    rfl
  | cons c cs ih =>
    intro db
    rcases matchLoop_cons_cases db agg c cs with heq | heq |
      ⟨order, counter, _, _, _, _, _, heq⟩
    · rw [heq]
    · rw [heq]
      exact ih db
    · rw [heq]
      dsimp only
      rw [ih (dealStep db agg c order counter), map_id_dealStep]

theorem matchLoop_trades (agg : Nat) (cs : List Nat) :
    ∀ db : DB, ∀ t ∈ (matchLoop db agg cs).2,
      ∃ cord ∈ db.orders, cord.id = t.ctrId ∧ t.price = priceOf cord := by
  induction cs with
  | nil =>
    intro db t h
    cases h
  | cons c cs ih =>
    intro db t h
    rcases matchLoop_cons_cases db agg c cs with heq | heq |
      ⟨order, counter, hfa, hfc, _, _, _, heq⟩
    · rw [heq] at h
      cases h
    · rw [heq] at h
      exact ih db t h
    · rw [heq] at h
      rcases List.mem_cons.mp h with rfl | htail
      · exact ⟨counter, findOrder_mem db c counter hfc, findOrder_id db c counter hfc, rfl⟩
      · rcases ih _ t htail with ⟨c₂, hm2, hid2, hp2⟩
        rcases dealStep_core db agg c order counter c₂ hm2 with ⟨c₀, hm0, hcore⟩
        obtain ⟨hid, _, _, _, _, _, hpr, _⟩ := hcore
        refine ⟨c₀, hm0, ?_, ?_⟩
        · rw [← hid2, hid]
        · rw [hp2]
          unfold priceOf
          rw [hpr]

theorem findOrder_execute_deal_agg (db : DB) (agg c : Nat) (q p : Int)
    (o ctr : Order) (hnd : idsNodup db) (hne : agg ≠ c)
    (h1 : findOrder db agg = some o) (h2 : findOrder db c = some ctr) :
    findOrder (execute_deal db agg c q p) agg =
      some { o with filled_quantity := o.filled_quantity + q, updated_at := db.now } := by
  unfold execute_deal
  rw [h1, h2]
  dsimp only
  refine (findOrder_setOrderF_other _ c agg _ ?_ hne).trans
    (findOrder_setOrderF_self _ agg _ ?_ hnd o h1)
  · intro x
    rfl
  · intro x
    rfl

theorem findOrder_dealStep_agg (db : DB) (agg c : Nat) (order counter o : Order)
    (hnd : idsNodup db) (hne : agg ≠ c)
    (h1 : findOrder db agg = some o) (h2 : findOrder db c = some counter) :
    findOrder (dealStep db agg c order counter) agg =
      some { o with
        filled_quantity := o.filled_quantity +
          min (order.quantity - order.filled_quantity)
            (counter.quantity - counter.filled_quantity),
        updated_at := db.now } := by
  unfold dealStep
  refine (findOrder_setOrderF_other _ c agg _ ?_ hne).trans
    (findOrder_execute_deal_agg db agg c _ _ o counter hnd hne h1 h2)
  intro x
  rfl

theorem idsNodup_dealStep (db : DB) (agg c : Nat) (order counter : Order)
    (hnd : idsNodup db) : idsNodup (dealStep db agg c order counter) := by
  unfold idsNodup
  rw [map_id_dealStep]
  exact hnd

theorem matchLoop_agg (agg : Nat) (cs : List Nat) :
    ∀ db : DB, idsNodup db → ∀ o, findOrder db agg = some o →
      ∃ o₁, findOrder (matchLoop db agg cs).1 agg = some o₁ ∧
        o₁.status = o.status ∧ o₁.quantity = o.quantity ∧
        o₁.order_type = o.order_type := by
  induction cs with
  | nil =>
    intro db _ o h
    exact ⟨o, h, rfl, rfl, rfl⟩
  | cons c cs ih =>
    intro db hnd o h
    rcases matchLoop_cons_cases db agg c cs with heq | heq |
      ⟨order, counter, hfa, hfc, hful, huser, hrem, heq⟩
    · rw [heq]
      exact ⟨o, h, rfl, rfl, rfl⟩
    · rw [heq]
      exact ih db hnd o h
    · rw [heq]
      dsimp only
      have hne : agg ≠ c := by
        intro he
        rw [he, hfc] at hfa
        have hco : counter = order := Option.some_injective _ hfa
        exact huser (by rw [hco])
      have hstep := findOrder_dealStep_agg db agg c order counter o hnd hne h hfc
      rcases ih (dealStep db agg c order counter)
          (idsNodup_dealStep db agg c order counter hnd) _ hstep with
        ⟨o₁, hf1, hs, hq, ht⟩
      exact ⟨o₁, hf1, hs, hq, ht⟩

theorem execute_deal_orders_eq (db : DB) (agg c : Nat) (q p : Int)
    (order counter : Order)
    (hfa : findOrder db agg = some order) (hfc : findOrder db c = some counter) :
    (execute_deal db agg c q p).orders =
      (db.orders.map (fun o =>
        if o.id == agg then
          { o with filled_quantity := o.filled_quantity + q, updated_at := db.now }
        else o)).map (fun o =>
          if o.id == c then
            { o with
                filled_quantity := o.filled_quantity + q,
                status := if o.filled_quantity + q ≥ o.quantity then OrderStatus.EXECUTED
                          else OrderStatus.PARTIALLY_EXECUTED,
                updated_at := db.now }
          else o) := by
  unfold execute_deal
  rw [hfa, hfc]
  rfl

theorem dealStep_orders_eq (db : DB) (agg c : Nat) (order counter : Order)
    (hfa : findOrder db agg = some order) (hfc : findOrder db c = some counter) :
    (dealStep db agg c order counter).orders =
      ((db.orders.map (fun o =>
        if o.id == agg then
          { o with
              filled_quantity := o.filled_quantity +
                min (order.quantity - order.filled_quantity)
                  (counter.quantity - counter.filled_quantity),
              updated_at := db.now }
        else o)).map (fun o =>
          if o.id == c then
            { o with
                filled_quantity := o.filled_quantity +
                  min (order.quantity - order.filled_quantity)
                    (counter.quantity - counter.filled_quantity),
                status := if o.filled_quantity +
                    min (order.quantity - order.filled_quantity)
                      (counter.quantity - counter.filled_quantity) ≥ o.quantity then
                    OrderStatus.EXECUTED
                  else OrderStatus.PARTIALLY_EXECUTED,
                updated_at := db.now }
          else o)).map (fun o =>
            if o.id == c then
              { o with
                  status := if o.filled_quantity ≥ o.quantity then OrderStatus.EXECUTED
                            else OrderStatus.PARTIALLY_EXECUTED }
            else o) := by
  unfold dealStep setOrderF
  rw [execute_deal_orders_eq db agg c _ _ order counter hfa hfc]

theorem dealStep_bounds (db : DB) (agg c : Nat) (order counter : Order)
    (hnd : idsNodup db) (hne : agg ≠ c)
    (hfa : findOrder db agg = some order) (hfc : findOrder db c = some counter)
    (hful : ¬order.filled_quantity ≥ order.quantity)
    (hrem : ¬counter.quantity - counter.filled_quantity ≤ 0)
    (hb : fillBounds db) : fillBounds (dealStep db agg c order counter) := by
  intro o' h'
  rw [dealStep_orders_eq db agg c order counter hfa hfc] at h'
  rcases List.mem_map.mp h' with ⟨o₂, h2, rfl⟩
  rcases List.mem_map.mp h2 with ⟨o₁, h1, rfl⟩
  rcases List.mem_map.mp h1 with ⟨o, hm, rfl⟩
  have horder : order.id = agg := findOrder_id db agg order hfa
  have hcounter : counter.id = c := findOrder_id db c counter hfc
  have hbo := hb o hm
  have hbord := hb order (findOrder_mem db agg order hfa)
  have hbctr := hb counter (findOrder_mem db c counter hfc)
  have hqle : min (order.quantity - order.filled_quantity)
      (counter.quantity - counter.filled_quantity) ≤
        order.quantity - order.filled_quantity := min_le_left _ _
  have hqle2 : min (order.quantity - order.filled_quantity)
      (counter.quantity - counter.filled_quantity) ≤
        counter.quantity - counter.filled_quantity := min_le_right _ _
  have hqpos : 0 < min (order.quantity - order.filled_quantity)
      (counter.quantity - counter.filled_quantity) :=
    lt_min (by omega) (by omega)
  by_cases ha : o.id = agg
  · have hoe : o = order :=
      eq_of_mem_nodup_id db.orders hnd o order hm (findOrder_mem db agg order hfa)
        (by rw [horder, ha])
    rw [hoe]
    have hoc : ¬(order.id = c) := by
      rw [horder]
      exact hne
    constructor
    · simp [horder, hoc, hne]
      omega
    · simp [horder, hoc, hne]
      omega
  · by_cases hc : o.id = c
    · have hoe : o = counter :=
        eq_of_mem_nodup_id db.orders hnd o counter hm (findOrder_mem db c counter hfc)
          (by rw [hcounter, hc])
      rw [hoe]
      have hca : ¬(counter.id = agg) := by
        rw [hcounter]
        exact fun h => hne h.symm
      have hca' : ¬(c = agg) := fun h => hne h.symm
      constructor
      · simp [hca, hca', hcounter]
        omega
      · simp [hca, hca', hcounter]
        omega
    · simp [ha, hc]
      exact hbo

theorem matchLoop_bounds (agg : Nat) (cs : List Nat) :
    ∀ db : DB, idsNodup db → fillBounds db → fillBounds (matchLoop db agg cs).1 := by
  induction cs with
  | nil =>
    intro db _ hb
    exact hb
  | cons c cs ih =>
    intro db hnd hb
    rcases matchLoop_cons_cases db agg c cs with heq | heq |
      ⟨order, counter, hfa, hfc, hful, huser, hrem, heq⟩
    · rw [heq]
      exact hb
    · rw [heq]
      exact ih db hnd hb
    · rw [heq]
      dsimp only
      have hne : agg ≠ c := by
        intro he
        rw [he, hfc] at hfa
        have hco : counter = order := Option.some_injective _ hfa
        exact huser (by rw [hco])
      exact ih (dealStep db agg c order counter)
        (idsNodup_dealStep db agg c order counter hnd)
        (dealStep_bounds db agg c order counter hnd hne hfa hfc hful hrem hb)

theorem findOrder_execute_deal_ctr (db : DB) (agg c : Nat) (q p : Int)
    (o ctr : Order) (hnd : idsNodup db) (hne : agg ≠ c)
    (h1 : findOrder db agg = some o) (h2 : findOrder db c = some ctr) :
    findOrder (execute_deal db agg c q p) c =
      some { ctr with
        filled_quantity := ctr.filled_quantity + q,
        status := if ctr.filled_quantity + q ≥ ctr.quantity then OrderStatus.EXECUTED
                  else OrderStatus.PARTIALLY_EXECUTED,
        updated_at := db.now } := by
  unfold execute_deal
  rw [h1, h2]
  dsimp only
  have hnd1 : idsNodup (setOrderF db agg (fun x =>
      { x with filled_quantity := x.filled_quantity + q, updated_at := db.now })) := by
    unfold idsNodup
    rw [map_id_setOrderF]
    · exact hnd
    · intro x
      rfl
  refine findOrder_setOrderF_self _ c _ ?_ ?_ ctr ?_
  · intro x
    rfl
  · exact hnd1
  · refine (findOrder_setOrderF_other _ agg c _ ?_ (fun he => hne he.symm)).trans h2
    intro x
    rfl

theorem statusAgrees_of_rule (o : Order)
    (hle : o.filled_quantity ≤ o.quantity) (hpos : 0 < o.filled_quantity)
    (hst : o.status =
      if o.filled_quantity ≥ o.quantity then OrderStatus.EXECUTED
      else OrderStatus.PARTIALLY_EXECUTED) :
    statusAgrees o := by
  unfold statusAgrees
  by_cases hge : o.filled_quantity ≥ o.quantity
  · rw [hst, if_pos hge]
    right
    refine ⟨⟨fun _ => ?_, fun _ => rfl⟩,
      ⟨fun hx => ?_, fun hx => ?_⟩, ⟨fun hx => ?_, fun hx => ?_⟩⟩
    · omega
    · cases hx
    · exfalso
      omega
    · cases hx
    · exfalso
      omega
  · rw [hst, if_neg hge]
    right
    refine ⟨⟨fun hx => ?_, fun hx => ?_⟩,
      ⟨fun _ => ⟨hpos, ?_⟩, fun _ => rfl⟩, ⟨fun hx => ?_, fun hx => ?_⟩⟩
    · cases hx
    · exfalso
      omega
    · omega
    · cases hx
    · exfalso
      omega

theorem dealStep_counter_status (db : DB) (agg c : Nat) (order counter : Order)
    (hnd : idsNodup db) (hne : agg ≠ c)
    (hfa : findOrder db agg = some order) (hfc : findOrder db c = some counter)
    (hful : ¬order.filled_quantity ≥ order.quantity)
    (hrem : ¬counter.quantity - counter.filled_quantity ≤ 0)
    (hb0 : 0 ≤ counter.filled_quantity) :
    ∃ c', findOrder (dealStep db agg c order counter) c = some c' ∧
      c'.filled_quantity = counter.filled_quantity +
        min (order.quantity - order.filled_quantity)
          (counter.quantity - counter.filled_quantity) ∧
      statusAgrees c' := by
  have hq := findOrder_execute_deal_ctr db agg c
    (min (order.quantity - order.filled_quantity)
      (counter.quantity - counter.filled_quantity))
    (priceOf counter) order counter hnd hne hfa hfc
  have hnd2 : idsNodup (execute_deal db agg c
      (min (order.quantity - order.filled_quantity)
        (counter.quantity - counter.filled_quantity)) (priceOf counter)) := by
    unfold idsNodup
    rw [map_id_execute_deal]
    exact hnd
  have hself := findOrder_setOrderF_self _ c
    (fun co =>
      { co with
          status := if co.filled_quantity ≥ co.quantity then OrderStatus.EXECUTED
                    else OrderStatus.PARTIALLY_EXECUTED })
    (fun x => rfl) hnd2 _ hq
  refine ⟨_, hself, rfl, ?_⟩
  have hqpos : 0 < min (order.quantity - order.filled_quantity)
      (counter.quantity - counter.filled_quantity) :=
    lt_min (by omega) (by omega)
  have hqle : min (order.quantity - order.filled_quantity)
      (counter.quantity - counter.filled_quantity) ≤
        counter.quantity - counter.filled_quantity := min_le_right _ _
  refine statusAgrees_of_rule _ ?_ ?_ ?_
  · dsimp only
    omega
  · dsimp only
    omega
  · rfl

theorem fillBounds_setOrderF (db : DB) (oid : Nat) (f : Order → Order)
    (hf : ∀ o, (f o).filled_quantity = o.filled_quantity ∧ (f o).quantity = o.quantity)
    (hb : fillBounds db) : fillBounds (setOrderF db oid f) := by
  intro o' h'
  rcases List.mem_map.mp h' with ⟨o, hm, rfl⟩
  by_cases h : (o.id == oid) = true
  · rw [if_pos h]
    rcases hf o with ⟨h1, h2⟩
    rw [h1, h2]
    exact hb o hm
  · rw [if_neg h]
    exact hb o hm

theorem execute_matching_noop (db : DB) (oid : Nat) (o : Order)
    (h : findOrder db oid = some o) (hs : o.status ≠ OrderStatus.NEW) :
    execute_matching db oid = Except.ok (db, []) := by
  unfold execute_matching
  rw [h]
  dsimp only
  rw [if_pos (by simpa [bne_iff_ne] using hs)]

theorem execute_matching_ok_cases (db : DB) (oid : Nat) (o : Order) (res : DB × List Trade)
    (h : findOrder db oid = some o) (hnew : o.status = OrderStatus.NEW)
    (hok : execute_matching db oid = Except.ok res) :
    res.1 = setOrderF (matchLoop db oid ((counterOrdersFor db o).map Order.id)).1 oid
      (fun x =>
        { x with
            status :=
              if x.filled_quantity ≥ x.quantity then OrderStatus.EXECUTED
              else if x.filled_quantity > 0 then OrderStatus.PARTIALLY_EXECUTED
              else if x.order_type == OrderType.MARKET then OrderStatus.CANCELLED
              else x.status,
            updated_at := (matchLoop db oid ((counterOrdersFor db o).map Order.id)).1.now }) ∧
    res.2 = (matchLoop db oid ((counterOrdersFor db o).map Order.id)).2 := by
  unfold execute_matching at hok
  rw [h] at hok
  dsimp only at hok
  rw [if_neg (by simp [hnew])] at hok
  by_cases hmc : (o.order_type == OrderType.MARKET &&
      !(check_market_order_executable db o.ticker o.side o.quantity).can) = true
  · rw [if_pos hmc] at hok
    cases hok
  · rw [if_neg hmc] at hok
    by_cases hem : (o.order_type == OrderType.MARKET &&
        (counterOrdersFor db o).isEmpty) = true
    · rw [if_pos hem] at hok
      cases hok
    · rw [if_neg hem] at hok
      have := Except.ok.inj hok
      constructor
      · rw [← this]
      · rw [← this]

theorem execute_matching_trades_at_counter_price (db : DB) (oid : Nat)
    (res : DB × List Trade) (hok : execute_matching db oid = Except.ok res) :
    ∀ t ∈ res.2, ∃ cord ∈ db.orders, cord.id = t.ctrId ∧ t.price = priceOf cord := by
  intro t ht
  cases hf : findOrder db oid with
  | none =>
    unfold execute_matching at hok
    rw [hf] at hok
    cases hok
  | some o =>
    by_cases hnew : o.status = OrderStatus.NEW
    · rcases execute_matching_ok_cases db oid o res hf hnew hok with ⟨_, h2⟩
      rw [h2] at ht
      exact matchLoop_trades oid ((counterOrdersFor db o).map Order.id) db t ht
    · rw [execute_matching_noop db oid o hf hnew] at hok
      have := Except.ok.inj hok
      rw [← this] at ht
      cases ht

theorem execute_matching_bounds (db : DB) (oid : Nat) (res : DB × List Trade)
    (hnd : idsNodup db) (hb : fillBounds db)
    (hok : execute_matching db oid = Except.ok res) : fillBounds res.1 := by
  cases hf : findOrder db oid with
  | none =>
    unfold execute_matching at hok
    rw [hf] at hok
    cases hok
  | some o =>
    by_cases hnew : o.status = OrderStatus.NEW
    · rcases execute_matching_ok_cases db oid o res hf hnew hok with ⟨h1, _⟩
      rw [h1]
      exact fillBounds_setOrderF _ oid _ (fun x => ⟨rfl, rfl⟩)
        (matchLoop_bounds oid ((counterOrdersFor db o).map Order.id) db hnd hb)
    · rw [execute_matching_noop db oid o hf hnew] at hok
      have := Except.ok.inj hok
      rw [← this]
      exact hb

theorem execute_matching_agg_final (db : DB) (oid : Nat) (o : Order)
    (res : DB × List Trade) (hnd : idsNodup db) (hb : fillBounds db)
    (h : findOrder db oid = some o) (hnew : o.status = OrderStatus.NEW)
    (hok : execute_matching db oid = Except.ok res) :
    ∃ o', findOrder res.1 oid = some o' ∧
      o'.quantity = o.quantity ∧ o'.order_type = o.order_type ∧
      0 ≤ o'.filled_quantity ∧ o'.filled_quantity ≤ o'.quantity ∧
      o'.status =
        (if o'.filled_quantity ≥ o'.quantity then OrderStatus.EXECUTED
         else if o'.filled_quantity > 0 then OrderStatus.PARTIALLY_EXECUTED
         else if o.order_type == OrderType.MARKET then OrderStatus.CANCELLED
         else OrderStatus.NEW) := by
  rcases execute_matching_ok_cases db oid o res h hnew hok with ⟨h1, _⟩
  rcases matchLoop_agg oid ((counterOrdersFor db o).map Order.id) db hnd o h with
    ⟨o₁, hf1, hs1, hq1, ht1⟩
  have hnd1 : idsNodup (matchLoop db oid ((counterOrdersFor db o).map Order.id)).1 := by
    unfold idsNodup
    rw [map_id_matchLoop]
    exact hnd
  have hb1 : fillBounds (matchLoop db oid ((counterOrdersFor db o).map Order.id)).1 :=
    matchLoop_bounds oid ((counterOrdersFor db o).map Order.id) db hnd hb
  have hbo1 := hb1 o₁ (findOrder_mem _ oid o₁ hf1)
  rw [h1]
  refine ⟨_, findOrder_setOrderF_self _ oid _ ?_ hnd1 o₁ hf1, hq1, ht1, ?_, ?_, ?_⟩
  · intro x
    rfl
  · exact hbo1.1
  · exact hbo1.2
  · by_cases hge : o₁.filled_quantity ≥ o₁.quantity
    · simp [hge]
    · by_cases hpos : o₁.filled_quantity > 0
      · simp [hge, hpos]
      · by_cases hmkt : (o.order_type == OrderType.MARKET) = true
        · simp [hge, hpos, hmkt, ht1]
        · simp [hge, hpos, hmkt, ht1, hs1, hnew]

theorem execute_deal_buyer_rub (db : DB) (aggId ctrId : Nat) (qty price : Int)
    (o c : Order) (pb : Int)
    (h1 : findOrder db aggId = some o) (h2 : findOrder db ctrId = some c)
    (hside : o.side = OrderSide.BUY) (htype : o.order_type = OrderType.LIMIT)
    (hpb : o.price = some pb)
    (huser : c.user_id ≠ o.user_id) (htick : o.ticker ≠ "RUB")
    (hq : 0 ≤ qty) (hple : price ≤ pb)
    (hrub : (findBalance db.balances o.user_id "RUB").isSome) :
    amountOf (execute_deal db aggId ctrId qty price) o.user_id "RUB" =
      amountOf db o.user_id "RUB" + (qty * pb - qty * price) := by
  unfold execute_deal
  rw [h1, h2]
  dsimp only
  rw [amountOf_eq_amountIn, setOrderF_balances, setOrderF_balances]
  dsimp only
  have hpo : priceOf o = pb := by simp [priceOf, hpb]
  simp only [hside, htype, hpo, beq_self_eq_true, if_true]
  have hb1 : findBalance (creditOrCreate db.balances o.user_id o.ticker qty)
      o.user_id "RUB" = findBalance db.balances o.user_id "RUB" :=
    findBalance_creditOrCreate_other db.balances o.user_id o.ticker qty o.user_id "RUB"
      (fun hc => htick hc.2.symm)
  have hb2 : findBalance
      (creditOrCreate (creditOrCreate db.balances o.user_id o.ticker qty)
        c.user_id "RUB" (qty * price)) o.user_id "RUB" =
      findBalance db.balances o.user_id "RUB" := by
    rw [findBalance_creditOrCreate_other _ c.user_id "RUB" (qty * price) o.user_id "RUB"
      (fun hc => huser hc.1.symm)]
    exact hb1
  by_cases hpos : qty * pb - qty * price > 0
  · rw [if_pos hpos]
    rw [amountIn_updateFirst_add _ _ _ _ (by rw [hb2]; exact hrub)]
    unfold amountIn
    rw [hb2]
    rfl
  · rw [if_neg hpos]
    have hz : qty * pb - qty * price = 0 := by
      have hnn : 0 ≤ qty * pb - qty * price := by
        have hmul : qty * price ≤ qty * pb := mul_le_mul_of_nonneg_left hple hq
        omega
      omega
    rw [amountOf_eq_amountIn]
    unfold amountIn
    rw [hb2, hz]
    omega

theorem findUserOrder_eq_none (db : DB) (oid uid : Nat)
    (h : ∀ x ∈ db.orders, ¬(x.id = oid ∧ x.user_id = uid)) :
    findUserOrder db oid uid = none := by
  unfold findUserOrder
  exact List.find?_eq_none.mpr (fun x hm => by
    intro hp
    exact h x hm (by simpa [Bool.and_eq_true, beq_iff_eq] using hp))

theorem findUserOrder_spec (db : DB) (oid uid : Nat) (o : Order)
    (h : findUserOrder db oid uid = some o) :
    o ∈ db.orders ∧ o.id = oid ∧ o.user_id = uid := by
  refine ⟨List.mem_of_find?_eq_some h, ?_⟩
  have := List.find?_some h
  simpa [Bool.and_eq_true, beq_iff_eq] using this

theorem cancel_order_terminal (db : DB) (uid oid : Nat) (o : Order)
    (h : findUserOrder db oid uid = some o)
    (hs : o.status = OrderStatus.EXECUTED ∨ o.status = OrderStatus.CANCELLED) :
    cancel_order db uid oid = (Except.error CancelErr.invalidStatus, db) := by
  unfold cancel_order
  rw [h]
  dsimp only
  rw [if_pos (by rcases hs with h' | h' <;> simp [h'])]

theorem cancel_order_sell (db : DB) (uid oid : Nat) (o : Order)
    (h : findUserOrder db oid uid = some o)
    (hs : o.status = OrderStatus.NEW ∨ o.status = OrderStatus.PARTIALLY_EXECUTED)
    (hside : o.side = OrderSide.SELL) (hrem : remaining o > 0) :
    (cancel_order db uid oid).1 = Except.ok () ∧
    amountOf (cancel_order db uid oid).2 uid o.ticker =
      amountOf db uid o.ticker + remaining o ∧
    (idsNodup db → ∃ o', findOrder (cancel_order db uid oid).2 oid = some o' ∧
      o'.status = OrderStatus.CANCELLED) := by
  have hcond : ¬((o.status != OrderStatus.NEW &&
      o.status != OrderStatus.PARTIALLY_EXECUTED) = true) := by
    rcases hs with h' | h' <;> simp [h']
  have hred : cancel_order db uid oid =
      (Except.ok (),
        setOrderF { db with balances := creditOrCreate db.balances uid o.ticker (remaining o) }
          oid (fun x =>
            { x with status := OrderStatus.CANCELLED, updated_at := db.now })) := by
    unfold cancel_order
    rw [h]
    dsimp only
    rw [if_neg hcond, if_pos hrem, if_neg (by simp [hside])]
  refine ⟨by rw [hred], ?_, ?_⟩
  · rw [hred]
    rw [amountOf_eq_amountIn, setOrderF_balances]
    dsimp only
    rw [amountOf_eq_amountIn]
    exact amountIn_creditOrCreate_same db.balances uid o.ticker (remaining o)
  · intro hnd
    rcases findUserOrder_spec db oid uid o h with ⟨hm, hid, _⟩
    have hfo : findOrder db oid = some o :=
      find?_eq_of_mem_nodup db.orders hnd o hm oid hid
    rw [hred]
    refine ⟨_, findOrder_setOrderF_self _ oid _ ?_ hnd o hfo, rfl⟩
    intro x
    rfl

theorem cancel_order_buy_limit (db : DB) (uid oid : Nat) (o : Order) (p : Int)
    (h : findUserOrder db oid uid = some o)
    (hs : o.status = OrderStatus.NEW ∨ o.status = OrderStatus.PARTIALLY_EXECUTED)
    (hside : o.side = OrderSide.BUY) (htype : o.order_type = OrderType.LIMIT)
    (hp : o.price = some p) (hrem : remaining o > 0) :
    (cancel_order db uid oid).1 = Except.ok () ∧
    amountOf (cancel_order db uid oid).2 uid "RUB" =
      amountOf db uid "RUB" + remaining o * p ∧
    (idsNodup db → ∃ o', findOrder (cancel_order db uid oid).2 oid = some o' ∧
      o'.status = OrderStatus.CANCELLED) := by
  have hcond : ¬((o.status != OrderStatus.NEW &&
      o.status != OrderStatus.PARTIALLY_EXECUTED) = true) := by
    rcases hs with h' | h' <;> simp [h']
  have hred : cancel_order db uid oid =
      (Except.ok (),
        setOrderF { db with balances := creditOrCreate db.balances uid "RUB" (remaining o * p) }
          oid (fun x =>
            { x with status := OrderStatus.CANCELLED, updated_at := db.now })) := by
    unfold cancel_order
    rw [h]
    dsimp only
    rw [if_neg hcond, if_pos hrem, if_pos (by simp [hside]), if_pos (by simp [htype]), hp]
  refine ⟨by rw [hred], ?_, ?_⟩
  · rw [hred]
    rw [amountOf_eq_amountIn, setOrderF_balances]
    dsimp only
    rw [amountOf_eq_amountIn]
    exact amountIn_creditOrCreate_same db.balances uid "RUB" (remaining o * p)
  · intro hnd
    rcases findUserOrder_spec db oid uid o h with ⟨hm, hid, _⟩
    have hfo : findOrder db oid = some o :=
      find?_eq_of_mem_nodup db.orders hnd o hm oid hid
    rw [hred]
    refine ⟨_, findOrder_setOrderF_self _ oid _ ?_ hnd o hfo, rfl⟩
    intro x
    rfl

theorem statusAgrees_of_final_rule (o : Order) (ty : OrderType)
    (qpos : 0 < o.quantity)
    (h0 : 0 ≤ o.filled_quantity) (hle : o.filled_quantity ≤ o.quantity)
    (hst : o.status =
      if o.filled_quantity ≥ o.quantity then OrderStatus.EXECUTED
      else if o.filled_quantity > 0 then OrderStatus.PARTIALLY_EXECUTED
      else if ty == OrderType.MARKET then OrderStatus.CANCELLED
      else OrderStatus.NEW) : statusAgrees o := by
  by_cases hge : o.filled_quantity ≥ o.quantity
  · rw [if_pos hge] at hst
    unfold statusAgrees
    right
    rw [hst]
    refine ⟨⟨fun _ => ?_, fun _ => rfl⟩,
      ⟨fun hx => ?_, fun hx => ?_⟩, ⟨fun hx => ?_, fun hx => ?_⟩⟩
    · omega
    · cases hx
    · exfalso
      omega
    · cases hx
    · exfalso
      omega
  · rw [if_neg hge] at hst
    by_cases hpos : o.filled_quantity > 0
    · rw [if_pos hpos] at hst
      unfold statusAgrees
      right
      rw [hst]
      refine ⟨⟨fun hx => ?_, fun hx => ?_⟩,
        ⟨fun _ => ⟨hpos, ?_⟩, fun _ => rfl⟩, ⟨fun hx => ?_, fun hx => ?_⟩⟩
      · cases hx
      · exfalso
        omega
      · omega
      · cases hx
      · exfalso
        omega
    · rw [if_neg hpos] at hst
      by_cases hm : (ty == OrderType.MARKET) = true
      · rw [if_pos hm] at hst
        exact Or.inl hst
      · rw [if_neg hm] at hst
        unfold statusAgrees
        right
        rw [hst]
        refine ⟨⟨fun hx => ?_, fun hx => ?_⟩,
          ⟨fun hx => ?_, fun hx => ?_⟩, ⟨fun _ => ?_, fun _ => rfl⟩⟩
        · cases hx
        · exfalso
          omega
        · cases hx
        · exfalso
          omega
        · omega

/-! ### Claim theorems -/

/-- C1: the claim states that `amount ≥ reserved(owner, ticker)` (with
`reserved` computed by get_reserved_balance) holds after every admitted
operation.  The code violates it: admitting a LIMIT SELL of the full
balance both decrements the balance (pre-decrement reservation) and counts
the open order in get_reserved_balance (derived reservation), so after the
admitted order of `outSellTen` user 1's AAA amount is 0 while the derived
reservation is 10. -/
theorem C1_invariant_violated_after_admission :
    outSellTen.result = Except.ok 1 ∧
    amountOf outSellTen.db 1 "AAA" = 0 ∧
    get_reserved_balance outSellTen.db 1 "AAA" = 10 ∧
    amountOf outSellTen.db 1 "AAA" < get_reserved_balance outSellTen.db 1 "AAA" := by
  decide

/-- C2: for every owner and ticker, get_reserved_balance equals the sum,
over the owner's open (NEW or PARTIALLY_EXECUTED) orders for that ticker,
of the full remaining quantity for SELL orders, remaining × limit price
for LIMIT BUY orders, and zero for the remaining (BUY MARKET) orders,
which are feasibility-checked but lock nothing. -/
theorem C2_reserved_equals_lock_sum (db : DB) (uid : Nat) (ticker : String) :
    get_reserved_balance db uid ticker = reservedSpec db uid ticker := by
  unfold get_reserved_balance reservedSpec
  dsimp only
  rw [foldl_reserved_eq_sum]
  omega

/-- C3: the claim states that exactly the open (NEW or PARTIALLY_EXECUTED)
orders with a positive remainder are members of the book, for the public
view and for matching.  The code violates it: the PARTIALLY_EXECUTED order
`oPartial` has remainder 5 yet is excluded both from the public book
filter and from the matcher's counter-order query, even though
check_market_order_executable in the same file counts it as available
liquidity — an internal inconsistency. -/
theorem C3_partially_executed_excluded :
    (isOpen oPartial = true ∧ remaining oPartial = 5) ∧
    inOrderBook "AAA" oPartial = false ∧
    eligibleCounter oAggressor oPartial = false ∧
    counterOrdersFor dbPartial oAggressor = [] ∧
    (check_market_order_executable dbPartial "AAA" OrderSide.BUY 5).can = true := by
  decide

/-- C4: the matcher's counter-order list is sorted in strict price-time
priority — ascending price for a BUY aggressor, descending price for a
SELL aggressor, ties broken by earlier creation — and, concretely, with
two resting SELL orders at 100 where order 1 was created before order 2,
a BUY for one unit (order 3 of `outTwoAsks`) trades against order 1,
which ends EXECUTED, while order 2 stays NEW and unfilled. -/
theorem C4_price_time_priority :
    (∀ (db : DB) (o : Order),
      List.Sorted (priorityRel o.side) (counterOrdersFor db o)) ∧
    ((counterOrdersFor dbTwoAsks
        ⟨3, 1, "AAA", OrderType.LIMIT, OrderSide.BUY, 1, some 100, 0,
          OrderStatus.NEW, 5, 5⟩).map Order.id = [1, 2] ∧
     outTwoAsks.trades = [⟨3, 1, 1, 100⟩] ∧
     (findOrder outTwoAsks.db 1).map Order.filled_quantity = some 1 ∧
     (findOrder outTwoAsks.db 1).map Order.status = some OrderStatus.EXECUTED ∧
     (findOrder outTwoAsks.db 2).map Order.filled_quantity = some 0 ∧
     (findOrder outTwoAsks.db 2).map Order.status = some OrderStatus.NEW) := by
  constructor
  · intro db o
    unfold counterOrdersFor priorityRel
    cases hs : o.side
    · rw [if_pos (by simp [hs])]
      exact List.sorted_insertionSort askLE _
    · rw [if_neg (by simp [hs])]
      exact List.sorted_insertionSort bidLE _
  · decide

/-- C5: every trade records the resting counter-order's price; for a LIMIT
buyer with limit `pb`, a deal leg at price ≤ pb credits the buyer's RUB
row with exactly the reservation excess `qty × pb − qty × price`, so the
leg's net RUB debit is `qty × price`; concretely, the LIMIT BUY at 110
against the resting SELL at 100 for quantity 5 of `outPriceImprove` trades
at 100 and leaves the buyer charged exactly 500 (1000 − 550 reserved + 50
refunded) with the seller credited 500. -/
theorem C5_resting_price_and_refund :
    (∀ (db : DB) (oid : Nat) (res : DB × List Trade),
      execute_matching db oid = Except.ok res →
      ∀ t ∈ res.2, ∃ cord ∈ db.orders, cord.id = t.ctrId ∧ t.price = priceOf cord) ∧
    (∀ (db : DB) (aggId ctrId : Nat) (qty price : Int) (o c : Order) (pb : Int),
      findOrder db aggId = some o → findOrder db ctrId = some c →
      o.side = OrderSide.BUY → o.order_type = OrderType.LIMIT → o.price = some pb →
      c.user_id ≠ o.user_id → o.ticker ≠ "RUB" → 0 ≤ qty → price ≤ pb →
      (findBalance db.balances o.user_id "RUB").isSome →
      amountOf (execute_deal db aggId ctrId qty price) o.user_id "RUB" =
        amountOf db o.user_id "RUB" + (qty * pb - qty * price)) ∧
    (outPriceImprove.trades = [⟨2, 1, 5, 100⟩] ∧
     amountOf outPriceImprove.db 1 "RUB" = 500 ∧
     amountOf outPriceImprove.db 2 "RUB" = 500 ∧
     (findOrder outPriceImprove.db 2).map Order.status = some OrderStatus.EXECUTED) := by
  refine ⟨?_, ?_, by decide⟩
  · intro db oid res hok t ht
    exact execute_matching_trades_at_counter_price db oid res hok t ht
  · intro db aggId ctrId qty price o c pb h1 h2 hside htype hpb huser htick hq hple hrub
    exact execute_deal_buyer_rub db aggId ctrId qty price o c pb h1 h2 hside htype hpb
      huser htick hq hple hrub

/-- C5 witness: the refund clause of `C5_resting_price_and_refund`
instantiated on `dbDealW` — a single deal leg of 5 units at price 100 for
the LIMIT BUY at 110 credits the buyer's RUB row with the 50 RUB excess. -/
theorem C5_witness :
    amountOf (execute_deal dbDealW 1 2 5 100) 1 "RUB" =
      amountOf dbDealW 1 "RUB" + (5 * 110 - 5 * 100) :=
  C5_resting_price_and_refund.2.1 dbDealW 1 2 5 100 oBuyW oSellW 110
    (by decide) (by decide) (by decide) (by decide) (by decide)
    (by decide) (by decide) (by decide) (by decide) (by decide)

/-- C6 counterexample: the claim states that a MARKET SELL failing its
liquidity check is rejected before the order is persisted, producing no
order record.  In `outMarketSellEmpty` (a MARKET SELL of 5 AAA into a
book with no BUY orders) the request is indeed rejected, but an order
record remains in the store — the liquidity check for a MARKET SELL runs
only inside execute_matching, after the order row was inserted. -/
theorem C6_counterexample_market_sell_persists_record :
    outMarketSellEmpty.result =
      Except.error (CreateErr.matchingFailed MatchErr.marketNotExecutable) ∧
    outMarketSellEmpty.db.orders ≠ [] := by
  decide

/-- C6 amended: a MARKET BUY that fails its liquidity check is rejected
during admission, before persistence — no order record, no trade and no
state change at all; a MARKET SELL failing liquidity is admitted first
and rejected only during matching: the persisted order is rolled back to
status CANCELLED, no trade executes, and the reserved balance is fully
restored, so the balances equal the initial ones while a CANCELLED order
record remains. -/
theorem C6_amended_market_rejection :
    (outMarketBuyEmpty.result = Except.error CreateErr.marketNotExecutable ∧
     outMarketBuyEmpty.db = dbMarketBuyEmpty ∧
     outMarketBuyEmpty.trades = []) ∧
    (outMarketSellEmpty.result =
        Except.error (CreateErr.matchingFailed MatchErr.marketNotExecutable) ∧
     outMarketSellEmpty.trades = [] ∧
     outMarketSellEmpty.db.balances = dbMarketSellEmpty.balances ∧
     outMarketSellEmpty.db.orders.map Order.status = [OrderStatus.CANCELLED]) := by
  decide

/-- C7: cancel_order rejects terminal orders (EXECUTED or CANCELLED) with
an error and no state change; from NEW or PARTIALLY_EXECUTED it succeeds,
sets status CANCELLED and credits the full remaining reservation back to
the owner — the remaining quantity of the asset for a SELL order, the
remaining quantity × limit price in RUB for a LIMIT BUY order; concretely,
cancelling the NEW LIMIT SELL of 8 AAA in `dbCancelSell` (0 filled)
restores exactly 8 units, bringing the owner's AAA row from 2 to 10, and
ends with the order CANCELLED. -/
theorem C7_cancel_refunds_remaining_reservation :
    (∀ (db : DB) (uid oid : Nat) (o : Order),
      findUserOrder db oid uid = some o →
      (o.status = OrderStatus.EXECUTED ∨ o.status = OrderStatus.CANCELLED) →
      cancel_order db uid oid = (Except.error CancelErr.invalidStatus, db)) ∧
    (∀ (db : DB) (uid oid : Nat) (o : Order),
      findUserOrder db oid uid = some o →
      (o.status = OrderStatus.NEW ∨ o.status = OrderStatus.PARTIALLY_EXECUTED) →
      o.side = OrderSide.SELL → remaining o > 0 →
      (cancel_order db uid oid).1 = Except.ok () ∧
      amountOf (cancel_order db uid oid).2 uid o.ticker =
        amountOf db uid o.ticker + remaining o ∧
      (idsNodup db → ∃ o', findOrder (cancel_order db uid oid).2 oid = some o' ∧
        o'.status = OrderStatus.CANCELLED)) ∧
    (∀ (db : DB) (uid oid : Nat) (o : Order) (p : Int),
      findUserOrder db oid uid = some o →
      (o.status = OrderStatus.NEW ∨ o.status = OrderStatus.PARTIALLY_EXECUTED) →
      o.side = OrderSide.BUY → o.order_type = OrderType.LIMIT → o.price = some p →
      remaining o > 0 →
      (cancel_order db uid oid).1 = Except.ok () ∧
      amountOf (cancel_order db uid oid).2 uid "RUB" =
        amountOf db uid "RUB" + remaining o * p ∧
      (idsNodup db → ∃ o', findOrder (cancel_order db uid oid).2 oid = some o' ∧
        o'.status = OrderStatus.CANCELLED)) ∧
    ((cancel_order dbCancelSell 1 1).1 = Except.ok () ∧
     amountOf (cancel_order dbCancelSell 1 1).2 1 "AAA" = 10 ∧
     ((cancel_order dbCancelSell 1 1).2.orders.map Order.status =
       [OrderStatus.CANCELLED])) := by
  refine ⟨?_, ?_, ?_, by decide⟩
  · intro db uid oid o h hs
    exact cancel_order_terminal db uid oid o h hs
  · intro db uid oid o h hs hside hrem
    exact cancel_order_sell db uid oid o h hs hside hrem
  · intro db uid oid o p h hs hside htype hp hrem
    exact cancel_order_buy_limit db uid oid o p h hs hside htype hp hrem

/-- C7 witness: the SELL clause of
`C7_cancel_refunds_remaining_reservation` instantiated at `dbCancelSell`:
cancelling order 1 succeeds and credits the remaining 8 AAA back. -/
theorem C7_witness :
    (cancel_order dbCancelSell 1 1).1 = Except.ok () ∧
    amountOf (cancel_order dbCancelSell 1 1).2 1 oCancelSell.ticker =
      amountOf dbCancelSell 1 oCancelSell.ticker + remaining oCancelSell ∧
    (idsNodup dbCancelSell →
      ∃ o', findOrder (cancel_order dbCancelSell 1 1).2 1 = some o' ∧
        o'.status = OrderStatus.CANCELLED) :=
  C7_cancel_refunds_remaining_reservation.2.1 dbCancelSell 1 1 oCancelSell
    (by decide) (by decide) (by decide) (by decide)

/-- C8 counterexample: the claim states that after each trade leg the
status of BOTH participants agrees with the state-machine rule.  In
`dbMidWalk` the BUY aggressor (order 3, quantity 2) has two eligible legs
(counters [1, 2]); after the first leg — state `dbAfterFirstLeg` — the
aggressor's filled quantity is 1 with 0 < 1 < 2, yet its status is still
NEW, not PARTIALLY_EXECUTED: the code updates the aggressor's status only
after the whole walk. -/
theorem C8_counterexample_aggressor_status_lags :
    (counterOrdersFor dbMidWalk oMidWalkAgg).map Order.id = [1, 2] ∧
    (findOrder dbAfterFirstLeg 3).map Order.filled_quantity = some 1 ∧
    (findOrder dbAfterFirstLeg 3).map Order.quantity = some 2 ∧
    (findOrder dbAfterFirstLeg 3).map Order.status = some OrderStatus.NEW := by
  decide

/-- C8 amended: `0 ≤ filled_quantity ≤ quantity` holds for every order
after matching (given it held before and order ids are unique); the
resting counter-order's status is updated according to the state-machine
rule after each trade leg; the aggressor's status agrees with the rule
once execute_matching completes (mid-walk it may lag, per the
counterexample). -/
theorem C8_amended_bounds_and_statuses :
    (∀ (db : DB) (oid : Nat) (res : DB × List Trade),
      idsNodup db → fillBounds db → execute_matching db oid = Except.ok res →
      fillBounds res.1) ∧
    (∀ (db : DB) (agg c : Nat) (order counter : Order),
      idsNodup db → agg ≠ c →
      findOrder db agg = some order → findOrder db c = some counter →
      ¬order.filled_quantity ≥ order.quantity →
      ¬counter.quantity - counter.filled_quantity ≤ 0 →
      0 ≤ counter.filled_quantity →
      ∃ c', findOrder (dealStep db agg c order counter) c = some c' ∧
        c'.filled_quantity = counter.filled_quantity +
          min (order.quantity - order.filled_quantity)
            (counter.quantity - counter.filled_quantity) ∧
        statusAgrees c') ∧
    (∀ (db : DB) (oid : Nat) (o : Order) (res : DB × List Trade),
      idsNodup db → fillBounds db → findOrder db oid = some o →
      o.status = OrderStatus.NEW → 0 < o.quantity →
      execute_matching db oid = Except.ok res →
      ∃ o', findOrder res.1 oid = some o' ∧ statusAgrees o') := by
  refine ⟨?_, ?_, ?_⟩
  · intro db oid res hnd hb hok
    exact execute_matching_bounds db oid res hnd hb hok
  · intro db agg c order counter hnd hne hfa hfc hful hrem hb0
    exact dealStep_counter_status db agg c order counter hnd hne hfa hfc hful hrem hb0
  · intro db oid o res hnd hb h hnew hq hok
    rcases execute_matching_agg_final db oid o res hnd hb h hnew hok with
      ⟨o', hf, hqe, hty, h0, hle, hst⟩
    refine ⟨o', hf, statusAgrees_of_final_rule o' o.order_type ?_ h0 hle hst⟩
    rw [hqe]
    exact hq

/-- C8 witness: the completion clause of `C8_amended_bounds_and_statuses`
at `dbMidWalk`: after matching order 3 the aggressor's status agrees with
the state-machine rule. -/
theorem C8_witness :
    ∃ o', findOrder resMidWalk.1 3 = some o' ∧ statusAgrees o' :=
  C8_amended_bounds_and_statuses.2.2 dbMidWalk 3 oMidWalkAgg resMidWalk
    (by unfold idsNodup; decide) (by unfold fillBounds; decide)
    (by decide) (by decide) (by decide) (by decide)

/-- C9 counterexample: the claim states that a MARKET order closed after
its single pass "holds no lingering reservation".  In `outMarketPartial`
a MARKET SELL of 3 AAA passes the feasibility check (volume 1 + 5 over
NEW and PARTIALLY_EXECUTED counters), fills only 1 unit (the walk matches
only NEW counters), ends PARTIALLY_EXECUTED — and get_reserved_balance
still counts its remaining 2 units as reserved. -/
theorem C9_counterexample_market_sell_keeps_reservation :
    (outMarketPartial.result = Except.ok 3) ∧
    (findOrder outMarketPartial.db 3).map Order.filled_quantity = some 1 ∧
    (findOrder outMarketPartial.db 3).map Order.status =
      some OrderStatus.PARTIALLY_EXECUTED ∧
    get_reserved_balance outMarketPartial.db 1 "AAA" = 2 ∧
    get_reserved_balance outMarketPartial.db 1 "AAA" ≠ 0 := by
  decide

/-- C9 amended: the matcher is a no-op on any order whose status is not
NEW, so a completed MARKET order is never matched again; after the single
matching pass a MARKET aggressor never remains NEW — it ends CANCELLED
when nothing filled and PARTIALLY_EXECUTED on a strict partial fill, the
remainder being discarded; however a partially filled MARKET SELL keeps
its remaining quantity counted by get_reserved_balance (see the
counterexample), so the claim's "holds no lingering reservation" clause
does not hold for it. -/
theorem C9_amended_market_single_pass :
    (∀ (db : DB) (oid : Nat) (o : Order),
      findOrder db oid = some o → o.status ≠ OrderStatus.NEW →
      execute_matching db oid = Except.ok (db, [])) ∧
    (∀ (db : DB) (oid : Nat) (o : Order) (res : DB × List Trade),
      idsNodup db → fillBounds db → findOrder db oid = some o →
      o.order_type = OrderType.MARKET → o.status = OrderStatus.NEW →
      0 < o.quantity → execute_matching db oid = Except.ok res →
      ∃ o', findOrder res.1 oid = some o' ∧ o'.status ≠ OrderStatus.NEW ∧
        (o'.filled_quantity = 0 → o'.status = OrderStatus.CANCELLED) ∧
        (0 < o'.filled_quantity → o'.filled_quantity < o'.quantity →
          o'.status = OrderStatus.PARTIALLY_EXECUTED)) := by
  constructor
  · intro db oid o h hs
    exact execute_matching_noop db oid o h hs
  · intro db oid o res hnd hb h hmkt hnew hq hok
    rcases execute_matching_agg_final db oid o res hnd hb h hnew hok with
      ⟨o', hf, hqe, hty, h0, hle, hst⟩
    rw [hmkt] at hst
    refine ⟨o', hf, ?_, ?_, ?_⟩
    · intro hnewbad
      rw [hnewbad] at hst
      by_cases hge : o'.filled_quantity ≥ o'.quantity
      · rw [if_pos hge] at hst
        cases hst
      · rw [if_neg hge] at hst
        by_cases hpos : o'.filled_quantity > 0
        · rw [if_pos hpos] at hst
          cases hst
        · rw [if_neg hpos, if_pos (by decide)] at hst
          cases hst
    · intro hzero
      rw [hst, hzero]
      rw [if_neg (by rw [hqe]; omega), if_neg (by omega), if_pos (by decide)]
    · intro hpos hlt
      rw [hst]
      rw [if_neg (by omega), if_pos hpos]

/-- C9 witness: the single-pass clause of `C9_amended_market_single_pass`
at `dbMarketNew`: after matching, the NEW MARKET SELL (order 3) no longer
has status NEW and obeys the partial-fill rule. -/
theorem C9_witness :
    ∃ o', findOrder resMarketNew.1 3 = some o' ∧ o'.status ≠ OrderStatus.NEW ∧
      (o'.filled_quantity = 0 → o'.status = OrderStatus.CANCELLED) ∧
      (0 < o'.filled_quantity → o'.filled_quantity < o'.quantity →
        o'.status = OrderStatus.PARTIALLY_EXECUTED) :=
  C9_amended_market_single_pass.2 dbMarketNew 3 oMarketNew resMarketNew
    (by unfold idsNodup; decide) (by unfold fillBounds; decide)
    (by decide) (by decide) (by decide) (by decide) (by decide)

/-- C10: order lookup and cancellation are owner-isolated — when no order
with the requested id belongs to the requesting user (the id may well
exist under another owner), get_order returns the same NotFound result as
for a nonexistent id and cancel_order fails with NotFound leaving the
state untouched. -/
theorem C10_owner_isolated_lookup_and_cancel
    (db : DB) (uid oid : Nat)
    (h : ∀ x ∈ db.orders, ¬(x.id = oid ∧ x.user_id = uid)) :
    get_order db uid oid = none ∧
    cancel_order db uid oid = (Except.error CancelErr.notFound, db) := by
  have hn : findUserOrder db oid uid = none := findUserOrder_eq_none db oid uid h
  constructor
  · exact hn
  · unfold cancel_order
    rw [hn]

/-- C10 witness: in `dbForeignOrder` order 1 exists but belongs to user 2;
for user 1 the lookup returns none and cancellation fails with NotFound,
leaving the state unchanged. -/
theorem C10_witness :
    get_order dbForeignOrder 1 1 = none ∧
    cancel_order dbForeignOrder 1 1 = (Except.error CancelErr.notFound, dbForeignOrder) :=
  C10_owner_isolated_lookup_and_cancel dbForeignOrder 1 1 (by decide)

end Birzha
